import Mathlib

/-!
Shallow embedding of the company-intelligence platform's core
(src/app/data_sources.py, src/app/llm_enrichment.py, src/app/database.py,
src/app/pipeline.py) and proofs of its specified properties.

Conventions: Python floats are modelled as exact rationals, `datetime`
values as rationals counting seconds, Python `None` / absent dict keys as
`Option.none`, and raised exceptions as `Except.error` carrying `str(e)`.
-/

namespace CompanyIntel

/-- Timestamps (`datetime.utcnow()` values), in seconds. -/
abbrev Time := ℚ

/-! ## Bounded-TTL cache (data_sources.py lines 24-40) -/

/-- `CACHE_TTL = 300  # 5 minutes` (data_sources.py line 26). -/
def CACHE_TTL : ℚ := 300

/-- The module-level `_cache` dict: key to `(data, timestamp)`. -/
def Cache (α : Type) := String → Option (α × Time)

def emptyCache {α : Type} : Cache α := fun _ => none

/-- `_get_cached` (data_sources.py lines 29-35): return the stored data only
if the elapsed time since insertion is strictly below `CACHE_TTL`; the entry
itself is never removed. -/
def getCached {α : Type} (c : Cache α) (key : String) (now : Time) : Option α :=
  match c key with
  | some (data, timestamp) => if now - timestamp < CACHE_TTL then some data else none
  | none => none

/-- `_set_cache` (data_sources.py lines 38-40): overwrite the entry for `key`
with the data and the current timestamp. -/
def setCache {α : Type} (c : Cache α) (key : String) (data : α) (now : Time) : Cache α :=
  fun k => if k = key then some (data, now) else c k

/-! ## String helpers

Python's `str.lower` / `str.upper` and the substring test `needle in
haystack`.  The repository's keywords and symbols are ASCII, for which
`Char.toLower` / `Char.toUpper` coincide with Python's case mapping. -/

def strLower (s : String) : String := ⟨s.data.map Char.toLower⟩

def strUpper (s : String) : String := ⟨s.data.map Char.toUpper⟩

def isPrefixCheck : List Char → List Char → Bool
  | [], _ => true
  | _ :: _, [] => false
  | a :: as, b :: bs => a == b && isPrefixCheck as bs

def hasSubstr (haystack needle : List Char) : Bool :=
  match haystack with
  | [] => needle.isEmpty
  | _ :: t => isPrefixCheck needle haystack || hasSubstr t needle

/-- Python's `needle in haystack` on strings. -/
def strContains (haystack needle : String) : Bool := hasSubstr haystack.data needle.data

/-! ## Python `round`

`round(x, n)` on a float rounds to `n` decimal digits, ties to even. -/

def roundHalfEven (x : ℚ) : ℤ :=
  if x - ⌊x⌋ < 1/2 then ⌊x⌋
  else if 1/2 < x - ⌊x⌋ then ⌊x⌋ + 1
  else if ⌊x⌋ % 2 = 0 then ⌊x⌋ else ⌊x⌋ + 1

def pyRound (n : ℕ) (x : ℚ) : ℚ := (roundHalfEven (x * 10 ^ n) : ℚ) / 10 ^ n

/-! ## LLM enrichment (llm_enrichment.py) -/

/-- The `key_insights` payload (summary, risks, opportunities, action items). -/
structure Insights where
  summary : String
  risks : List String
  opportunities : List String
  action_items : List String
deriving DecidableEq

/-- The enrichment payload returned by `enrich_news_article` /
`_mock_enrich_article`. -/
structure Enrichment where
  sentiment_score : ℚ
  sentiment_label : String
  classification : String
  market_impact : String
  key_insights : Option Insights
deriving DecidableEq

/-- A raw news article dict as produced by the unstructured source
(title, source, author, url, published_at, content). -/
structure Article where
  title : String
  source : Option String
  author : Option String
  url : Option String
  published_at : Option Time
  content : String
deriving DecidableEq

/-- llm_enrichment.py line 181. -/
def positiveKeywords : List String :=
  ["growth", "beats", "exceeds", "upgrade", "strong", "success", "innovation", "profit"]

/-- llm_enrichment.py line 182. -/
def negativeKeywords : List String :=
  ["loss", "decline", "scrutiny", "investigation", "concern", "risk", "lawsuit", "miss"]

/-- `_mock_enrich_article` (llm_enrichment.py lines 173-224): keyword-based
sentiment, classification by fixed priority groups, `market_impact`
always `"medium"`. -/
def mockEnrichArticle (article : Article) : Enrichment :=
  let title := strLower (article.title ++ " " ++ article.content)
  let positive_count := positiveKeywords.countP (fun word => strContains title word)
  let negative_count := negativeKeywords.countP (fun word => strContains title word)
  let scoreLabel : ℚ × String :=
    if positive_count > negative_count then
      (0.3 + (positive_count * 0.1 : ℚ), "positive")
    else if negative_count > positive_count then
      (-0.3 - (negative_count * 0.1 : ℚ), "negative")
    else
      (0.0, "neutral")
  let sentiment_score := max (-1.0 : ℚ) (min (1.0 : ℚ) scoreLabel.1)
  let classification :=
    if ["earnings", "revenue", "profit", "quarter"].any (fun w => strContains title w) then
      "earnings"
    else if ["product", "launch", "announce", "innovation"].any (fun w => strContains title w) then
      "product"
    else if ["lawsuit", "legal", "regulatory", "investigation"].any (fun w => strContains title w) then
      "legal"
    else if ["ceo", "executive", "leadership", "management"].any (fun w => strContains title w) then
      "executive"
    else if ["market", "stock", "analyst", "upgrade"].any (fun w => strContains title w) then
      "market"
    else
      "other"
  { sentiment_score := pyRound 2 sentiment_score
    sentiment_label := scoreLabel.2
    classification := classification
    market_impact := "medium"
    key_insights := some
      { summary := "Article discusses " ++ classification ++ " developments."
        risks := ["Market volatility"]
        opportunities := ["Potential growth areas"]
        action_items := ["Monitor for updates"] } }

/-- The JSON payload parsed out of the model response on the primary path
(llm_enrichment.py line 89); each key may be absent. -/
structure ParsedLLM where
  sentiment_score : Option ℚ
  sentiment_label : Option String
  classification : Option String
  market_impact : Option String
  key_insights : Option Insights
deriving DecidableEq

/-- Outcome of the primary analysis call in `enrich_news_article`:
no key configured / `anthropic` missing (`client is None`), a parsed JSON
payload, a `json.JSONDecodeError`, or any other exception from the call. -/
inductive LLMOutcome
  | noClient
  | parsed (r : ParsedLLM)
  | parseError (msg : String)
  | apiError (msg : String)
deriving DecidableEq

/-- `enrich_news_article` (llm_enrichment.py lines 31-104): the primary path
validates and clamps the parsed payload; every other outcome falls back to
`_mock_enrich_article`. -/
def enrichNewsArticle (outcome : LLMOutcome) (article : Article) : Enrichment :=
  match outcome with
  | .parsed r =>
      { sentiment_score := max (-1.0 : ℚ) (min (1.0 : ℚ) (r.sentiment_score.getD 0))
        sentiment_label := strLower (r.sentiment_label.getD "neutral")
        classification := strLower (r.classification.getD "other")
        market_impact := strLower (r.market_impact.getD "medium")
        key_insights := r.key_insights }
  | .noClient => mockEnrichArticle article
  | .parseError _ => mockEnrichArticle article
  | .apiError _ => mockEnrichArticle article

/-! ### Facts about rounding -/

theorem roundHalfEven_le {x : ℚ} {m : ℤ} (h : x ≤ (m : ℚ)) : roundHalfEven x ≤ m := by
  unfold roundHalfEven
  have hf : ⌊x⌋ ≤ m := Int.floor_le_floor h |>.trans_eq (Int.floor_intCast m)
  split
  · exact hf
  · next hr =>
    have hge : (1 : ℚ)/2 ≤ x - ⌊x⌋ := le_of_not_lt hr
    have hlt : ⌊x⌋ < m := by
      by_contra hc
      have hm : (m : ℚ) ≤ (⌊x⌋ : ℚ) := by exact_mod_cast le_of_not_lt hc
      have : x ≥ (m : ℚ) + 1/2 := by
        have := add_le_add hm hge
        linarith [Int.floor_le x]
      linarith
    split
    · omega
    · split <;> omega

theorem roundHalfEven_ge {x : ℚ} {m : ℤ} (h : (m : ℚ) ≤ x) : m ≤ roundHalfEven x := by
  unfold roundHalfEven
  have hf : m ≤ ⌊x⌋ := Int.le_floor.2 h
  split
  · exact hf
  · split
    · omega
    · split <;> omega

theorem roundHalfEven_intCast (m : ℤ) : roundHalfEven (m : ℚ) = m := by
  unfold roundHalfEven
  rw [Int.floor_intCast]
  norm_num

/-- `round(x, n)` is the identity on rationals that already have at most
`n` decimal digits. -/
theorem pyRound_eq_self {n : ℕ} {x : ℚ} {k : ℤ} (h : x = (k : ℚ) / 10 ^ n) :
    pyRound n x = x := by
  have h10 : ((10 : ℚ) ^ n) ≠ 0 := by positivity
  have hx : x * 10 ^ n = (k : ℚ) := by
    rw [h, div_mul_cancel₀ _ h10]
  rw [pyRound, hx, roundHalfEven_intCast, h]

theorem pyRound_le {n : ℕ} {x : ℚ} {m : ℤ} (h : x ≤ (m : ℚ)) : pyRound n x ≤ (m : ℚ) := by
  have h10 : (0 : ℚ) < 10 ^ n := by positivity
  have hx : x * 10 ^ n ≤ ((m * 10 ^ n : ℤ) : ℚ) := by
    push_cast
    exact mul_le_mul_of_nonneg_right h h10.le
  have hr : roundHalfEven (x * 10 ^ n) ≤ m * 10 ^ n := roundHalfEven_le hx
  rw [pyRound, div_le_iff₀ h10]
  calc (roundHalfEven (x * 10 ^ n) : ℚ) ≤ ((m * 10 ^ n : ℤ) : ℚ) := by exact_mod_cast hr
    _ = (m : ℚ) * 10 ^ n := by push_cast; ring

theorem pyRound_ge {n : ℕ} {x : ℚ} {m : ℤ} (h : (m : ℚ) ≤ x) : (m : ℚ) ≤ pyRound n x := by
  have h10 : (0 : ℚ) < 10 ^ n := by positivity
  have hx : ((m * 10 ^ n : ℤ) : ℚ) ≤ x * 10 ^ n := by
    push_cast
    exact mul_le_mul_of_nonneg_right h h10.le
  have hr : m * 10 ^ n ≤ roundHalfEven (x * 10 ^ n) := roundHalfEven_ge hx
  rw [pyRound, le_div_iff₀ h10]
  calc (m : ℚ) * 10 ^ n = ((m * 10 ^ n : ℤ) : ℚ) := by push_cast; ring
    _ ≤ (roundHalfEven (x * 10 ^ n) : ℚ) := by exact_mod_cast hr

/-! ### C3 and C4 -/

/-- C3: the fallback enrichment counts how many of the fixed positive and
negative keywords occur in the lowercased title+content; when positives
outnumber negatives it returns score `0.3 + 0.1 * positive_count` capped at
`1.0` with label "positive", when negatives outnumber positives the symmetric
negative value floored at `-1.0` with label "negative", and exactly `0.0`
with label "neutral" otherwise. -/
theorem mock_sentiment_formula (a : Article) :
    let t := strLower (a.title ++ " " ++ a.content)
    let p := positiveKeywords.countP (fun word => strContains t word)
    let n := negativeKeywords.countP (fun word => strContains t word)
    (n < p → (mockEnrichArticle a).sentiment_score = min (1.0 : ℚ) (0.3 + (p : ℚ) * 0.1) ∧
      (mockEnrichArticle a).sentiment_label = "positive") ∧
    (p < n → (mockEnrichArticle a).sentiment_score = max (-1.0 : ℚ) (-0.3 - (n : ℚ) * 0.1) ∧
      (mockEnrichArticle a).sentiment_label = "negative") ∧
    (p = n → (mockEnrichArticle a).sentiment_score = 0 ∧
      (mockEnrichArticle a).sentiment_label = "neutral") := by
  intro t p n
  have hscore : (mockEnrichArticle a).sentiment_score =
      pyRound 2 (max (-1.0 : ℚ) (min (1.0 : ℚ)
        (if n < p then 0.3 + (p : ℚ) * 0.1
         else if p < n then -0.3 - (n : ℚ) * 0.1 else 0.0))) := by
    simp only [mockEnrichArticle, t, p, n]
    split
    · rfl
    · split <;> rfl
  have hlabel : (mockEnrichArticle a).sentiment_label =
      (if n < p then "positive" else if p < n then "negative" else "neutral") := by
    simp only [mockEnrichArticle, t, p, n]
    split
    · rfl
    · split <;> rfl
  clear_value t p n
  refine ⟨fun h => ⟨?_, ?_⟩, fun h => ⟨?_, ?_⟩, fun h => ⟨?_, ?_⟩⟩
  · rw [hscore, if_pos h]
    have hge : (0 : ℚ) ≤ (p : ℚ) * 0.1 := by positivity
    have hmax : max (-1.0 : ℚ) (min (1.0 : ℚ) (0.3 + (p : ℚ) * 0.1)) =
        min (1.0 : ℚ) (0.3 + (p : ℚ) * 0.1) :=
      max_eq_right (le_min_iff.2 ⟨by norm_num, by linarith⟩)
    rw [hmax]
    rcases le_total (0.3 + (p : ℚ) * 0.1) (1.0 : ℚ) with h1 | h1
    · rw [min_eq_right h1]
      exact pyRound_eq_self (n := 2) (x := 0.3 + (p : ℚ) * 0.1) (k := 30 + 10 * p)
        (by push_cast; ring)
    · rw [min_eq_left h1]
      exact pyRound_eq_self (n := 2) (x := (1.0 : ℚ)) (k := 100) (by norm_num)
  · rw [hlabel, if_pos h]
  · rw [hscore, if_neg (by omega), if_pos h]
    have hge : (0 : ℚ) ≤ (n : ℚ) * 0.1 := by positivity
    have hmin : min (1.0 : ℚ) (-0.3 - (n : ℚ) * 0.1) = -0.3 - (n : ℚ) * 0.1 :=
      min_eq_right (by linarith)
    rw [hmin]
    rcases le_total (-1.0 : ℚ) (-0.3 - (n : ℚ) * 0.1) with h1 | h1
    · rw [max_eq_right h1]
      exact pyRound_eq_self (n := 2) (x := -0.3 - (n : ℚ) * 0.1) (k := -30 - 10 * n)
        (by push_cast; ring)
    · rw [max_eq_left h1]
      exact pyRound_eq_self (n := 2) (x := (-1.0 : ℚ)) (k := -100) (by norm_num)
  · rw [hlabel, if_neg (by omega), if_pos h]
  · rw [hscore, if_neg (by omega), if_neg (by omega)]
    have hval : max (-1.0 : ℚ) (min (1.0 : ℚ) 0.0) = 0 := by norm_num
    rw [hval]
    exact pyRound_eq_self (n := 2) (x := 0) (k := 0) (by norm_num)
  · rw [hlabel, if_neg (by omega), if_neg (by omega)]

/-- Witness for C3 at a concrete article containing the single positive
keyword "growth": the score is `min 1.0 (0.3 + 1 * 0.1) = 0.4`. -/
theorem mock_sentiment_formula_witness :
    let a : Article := { title := "growth", source := none, author := none,
                         url := none, published_at := none, content := "plain text" }
    let t := strLower (a.title ++ " " ++ a.content)
    let p := positiveKeywords.countP (fun word => strContains t word)
    let n := negativeKeywords.countP (fun word => strContains t word)
    n < p ∧ (mockEnrichArticle a).sentiment_score = min (1.0 : ℚ) (0.3 + (p : ℚ) * 0.1) ∧
      (mockEnrichArticle a).sentiment_label = "positive" := by
  refine ⟨by decide, (mock_sentiment_formula _).1 (by decide)⟩

/-- C4: on both the primary (parsed-payload) path and every fallback path,
the produced sentiment score lies in `[-1, 1]`. -/
theorem sentiment_score_bounded (outcome : LLMOutcome) (a : Article) :
    -1 ≤ (enrichNewsArticle outcome a).sentiment_score ∧
      (enrichNewsArticle outcome a).sentiment_score ≤ 1 := by
  have hmock : -1 ≤ (mockEnrichArticle a).sentiment_score ∧
      (mockEnrichArticle a).sentiment_score ≤ 1 := by
    obtain ⟨X, hX⟩ : ∃ X, (mockEnrichArticle a).sentiment_score =
        pyRound 2 (max (-1.0 : ℚ) (min (1.0 : ℚ) X)) := ⟨_, rfl⟩
    rw [hX]
    have h1 : ((-1 : ℤ) : ℚ) ≤ max (-1.0 : ℚ) (min (1.0 : ℚ) X) :=
      le_trans (by norm_num) (le_max_left _ _)
    have h2 : max (-1.0 : ℚ) (min (1.0 : ℚ) X) ≤ ((1 : ℤ) : ℚ) :=
      max_le (by norm_num) (le_trans (min_le_left _ _) (by norm_num))
    constructor
    · exact_mod_cast pyRound_ge h1
    · exact_mod_cast pyRound_le h2
  cases outcome with
  | parsed r =>
      refine ⟨le_trans (by norm_num) (le_max_left _ _),
        max_le (by norm_num) (le_trans (min_le_left _ _) (by norm_num))⟩
  | noClient => exact hmock
  | parseError m => exact hmock
  | apiError m => exact hmock

/-! ### C9: cache TTL semantics -/

/-- C9: after a `set`, a `get` for the same key returns that value exactly
when the elapsed time is strictly below the 300-second TTL; a `get`
immediately after the `set` succeeds; at or past expiry the `get` behaves
as absent while the raw entry is still stored (never purged); and a `get`
sees the value of the most recent `set` for the key. -/
theorem cache_ttl_semantics {α : Type} (c : Cache α) (key : String) (v : α) (t now : Time) :
    (getCached (setCache c key v t) key now = some v ↔ now - t < CACHE_TTL) ∧
    getCached (setCache c key v t) key t = some v ∧
    (CACHE_TTL ≤ now - t → getCached (setCache c key v t) key now = none ∧
      setCache c key v t key = some (v, t)) ∧
    (∀ (u : α) (s : Time),
      getCached (setCache (setCache c key u s) key v t) key now =
        getCached (setCache c key v t) key now) := by
  have hentry : setCache c key v t key = some (v, t) := by
    simp [setCache]
  refine ⟨?_, ?_, fun hexp => ⟨?_, hentry⟩, fun u s => ?_⟩
  · simp only [getCached, hentry]
    constructor
    · intro h
      by_contra hc
      rw [if_neg hc] at h
      exact Option.noConfusion h
    · intro h
      rw [if_pos h]
  · simp only [getCached, hentry]
    rw [if_pos (by rw [sub_self]; norm_num [CACHE_TTL])]
  · simp only [getCached, hentry]
    rw [if_neg (not_lt.2 hexp)]
  · have hentry2 : setCache (setCache c key u s) key v t key = some (v, t) := by
      simp [setCache]
    simp only [getCached, hentry, hentry2]

/-- Witness for C9 at a concrete cache: an entry set at time 0 is absent at
time 300 (= TTL) but still stored. -/
theorem cache_ttl_semantics_witness :
    CACHE_TTL ≤ (300 : ℚ) - 0 ∧
    getCached (setCache (emptyCache (α := ℕ)) "k" 7 0) "k" 300 = none ∧
    setCache (emptyCache (α := ℕ)) "k" 7 0 "k" = some (7, 0) := by
  have h := (cache_ttl_semantics (emptyCache (α := ℕ)) "k" 7 0 300).2.2.1
    (by norm_num [CACHE_TTL])
  exact ⟨by norm_num [CACHE_TTL], h.1, h.2⟩

/-! ## Persistence layer (models.py, database.py)

The SQLite store is modelled as lists of rows.  `companies.symbol` is the
primary key, `name` is NOT NULL (models.py lines 23-24); inserting a
duplicate or a null required column raises `IntegrityError`, modelled as
`Except.error "IntegrityError"`.  The session is created with
`autoflush=False` (database.py line 25), so a query made inside an
operation sees only rows committed before the pending `add` calls. -/

/-- A `companies` row (models.py lines 19-39). -/
structure Company where
  symbol : String
  name : String
  sector : Option String
  industry : Option String
  description : Option String
  market_cap : Option ℚ
  pe_ratio : Option ℚ
  dividend_yield : Option ℚ
  fifty_two_week_high : Option ℚ
  fifty_two_week_low : Option ℚ
  enriched_summary : Option String
  created_at : Time
  updated_at : Time
deriving DecidableEq

/-- An incoming `company_data` dict; `none` stands for an absent key or a
`None` value (both are skipped by `upsert_company`). -/
structure CompanyIn where
  symbol : Option String := none
  name : Option String := none
  sector : Option String := none
  industry : Option String := none
  description : Option String := none
  market_cap : Option ℚ := none
  pe_ratio : Option ℚ := none
  dividend_yield : Option ℚ := none
  fifty_two_week_high : Option ℚ := none
  fifty_two_week_low : Option ℚ := none
  enriched_summary : Option String := none
deriving DecidableEq

/-- An incoming stock record dict (data_sources.py lines 141-148). -/
structure StockIn where
  date : Time
  open_price : Option ℚ := none
  high_price : Option ℚ := none
  low_price : Option ℚ := none
  close_price : Option ℚ := none
  volume : Option ℤ := none
deriving DecidableEq

/-- A `stock_data` row (models.py lines 42-56). -/
structure StockRow where
  symbol : String
  date : Time
  open_price : Option ℚ
  high_price : Option ℚ
  low_price : Option ℚ
  close_price : Option ℚ
  volume : Option ℤ
deriving DecidableEq

/-- A `news_articles` row (models.py lines 59-81); `id` autoincrements and
the enrichment columns start out null. -/
structure ArticleRow where
  id : ℕ
  symbol : String
  title : String
  source : Option String
  author : Option String
  url : Option String
  published_at : Option Time
  content : String
  sentiment_score : Option ℚ
  sentiment_label : Option String
  classification : Option String
  key_insights : Option Insights
  market_impact : Option String
  enriched_at : Option Time
deriving DecidableEq

/-- The whole store; `nextArticleId` is the articles autoincrement counter. -/
structure Db where
  companies : List Company
  stocks : List StockRow
  articles : List ArticleRow
  nextArticleId : ℕ
deriving DecidableEq

def emptyDb : Db := { companies := [], stocks := [], articles := [], nextArticleId := 1 }

/-- Replace the first element satisfying `p` (SQLAlchemy mutates the single
row returned by `.first()`). -/
def updateFirst {α : Type} (p : α → Bool) (f : α → α) : List α → List α
  | [] => []
  | x :: xs => if p x then f x :: xs else x :: updateFirst p f xs

/-- `get_company` (database.py lines 62-64). -/
def getCompany (db : Db) (symbol : String) : Option Company :=
  db.companies.find? (fun c => c.symbol == strUpper symbol)

/-- `setattr(existing, key, value)` only when `value is not None`: keep the
stored value when the incoming one is null or absent. -/
def mergeField {α : Type} (incoming stored : Option α) : Option α :=
  match incoming with
  | some v => some v
  | none => stored

/-- The merge loop of `upsert_company` (database.py lines 78-81): overwrite
a stored field only when the incoming value is non-null, then bump
`updated_at`. -/
def mergeCompany (existing : Company) (data : CompanyIn) (now : Time) : Company :=
  { symbol := data.symbol.getD existing.symbol
    name := data.name.getD existing.name
    sector := mergeField data.sector existing.sector
    industry := mergeField data.industry existing.industry
    description := mergeField data.description existing.description
    market_cap := mergeField data.market_cap existing.market_cap
    pe_ratio := mergeField data.pe_ratio existing.pe_ratio
    dividend_yield := mergeField data.dividend_yield existing.dividend_yield
    fifty_two_week_high := mergeField data.fifty_two_week_high existing.fifty_two_week_high
    fifty_two_week_low := mergeField data.fifty_two_week_low existing.fifty_two_week_low
    enriched_summary := mergeField data.enriched_summary existing.enriched_summary
    created_at := existing.created_at
    updated_at := now }

/-- A fresh `CompanyDB(**company_data)` row (database.py line 86); the
timestamp columns default to `utcnow`. -/
def insertCompanyRow (s n : String) (data : CompanyIn) (now : Time) : Company :=
  { symbol := s
    name := n
    sector := data.sector
    industry := data.industry
    description := data.description
    market_cap := data.market_cap
    pe_ratio := data.pe_ratio
    dividend_yield := data.dividend_yield
    fifty_two_week_high := data.fifty_two_week_high
    fifty_two_week_low := data.fifty_two_week_low
    enriched_summary := data.enriched_summary
    created_at := now
    updated_at := now }

/-- `upsert_company` (database.py lines 72-90).  The duplicate lookup
uppercases the incoming symbol, but the stored value is written verbatim;
committing a duplicate or null primary key, or a null `name`, raises. -/
def upsertCompany (db : Db) (data : CompanyIn) (now : Time) :
    Except String (Company × Db) :=
  let symbol := strUpper (data.symbol.getD "")
  match db.companies.find? (fun c => c.symbol == symbol) with
  | some existing =>
      let merged := mergeCompany existing data now
      if merged.symbol ≠ existing.symbol ∧
          db.companies.any (fun c => c.symbol == merged.symbol) then
        .error "IntegrityError"
      else
        .ok (merged,
          { db with companies :=
              updateFirst (fun c => c.symbol == symbol) (fun _ => merged) db.companies })
  | none =>
      match data.symbol, data.name with
      | some s, some n =>
          if db.companies.any (fun c => c.symbol == s) then
            .error "IntegrityError"
          else
            let c := insertCompanyRow s n data now
            .ok (c, { db with companies := db.companies ++ [c] })
      | _, _ => .error "IntegrityError"

/-- The row built from one stock record dict (database.py line 110). -/
def stockRowOf (symbol : String) (r : StockIn) : StockRow :=
  { symbol := symbol
    date := r.date
    open_price := r.open_price
    high_price := r.high_price
    low_price := r.low_price
    close_price := r.close_price
    volume := r.volume }

/-- `add_stock_data` (database.py lines 97-115): insert each record whose
(symbol, date) has no committed row, and return the number inserted.
Because the session has `autoflush=False`, every duplicate check inside one
call runs against the state committed before the call, so duplicates inside
one batch are all inserted. -/
def addStockData (db : Db) (symbol : String) (stock_records : List StockIn) : Db × ℕ :=
  let sym := strUpper symbol
  let inserted := stock_records.filter
    (fun r => !(db.stocks.any (fun s => s.symbol == sym && decide (s.date = r.date))))
  ({ db with stocks := db.stocks ++ inserted.map (stockRowOf sym) }, inserted.length)

/-- The row built by `NewsArticleDB(symbol=..., **article_data)`
(database.py line 139): enrichment columns start null. -/
def articleRowOf (id : ℕ) (symbol : String) (a : Article) : ArticleRow :=
  { id := id
    symbol := strUpper symbol
    title := a.title
    source := a.source
    author := a.author
    url := a.url
    published_at := a.published_at
    content := a.content
    sentiment_score := none
    sentiment_label := none
    classification := none
    key_insights := none
    market_impact := none
    enriched_at := none }

/-- `add_news_article` (database.py lines 129-143): when the incoming dict
has a truthy (non-null, non-empty) url, return the existing row with that
url if any; otherwise insert a fresh row. -/
def addNewsArticle (db : Db) (symbol : String) (article_data : Article) :
    ArticleRow × Db :=
  let dup : Option ArticleRow :=
    if article_data.url.getD "" ≠ "" then
      db.articles.find? (fun r => decide (r.url = article_data.url))
    else none
  match dup with
  | some existing => (existing, db)
  | none =>
      let row := articleRowOf db.nextArticleId symbol article_data
      (row, { db with articles := db.articles ++ [row],
                      nextArticleId := db.nextArticleId + 1 })

/-- The column assignments of `update_article_enrichment`. -/
def enrichRow (enrichment : Enrichment) (now : Time) (r : ArticleRow) : ArticleRow :=
  { r with sentiment_score := some enrichment.sentiment_score
           sentiment_label := some enrichment.sentiment_label
           classification := some enrichment.classification
           key_insights := enrichment.key_insights
           market_impact := some enrichment.market_impact
           enriched_at := some now }

/-- `update_article_enrichment` (database.py lines 154-164): set all the
enrichment columns and `enriched_at` on the row with the given id; a no-op
when no row matches. -/
def updateArticleEnrichment (db : Db) (article_id : ℕ) (enrichment : Enrichment)
    (now : Time) : Db :=
  { db with articles :=
      updateFirst (fun r => r.id == article_id) (enrichRow enrichment now) db.articles }

/-- `get_all_companies` (database.py lines 67-69): all companies ordered by
name. -/
def getAllCompanies (db : Db) : List Company :=
  db.companies.insertionSort (fun a b => a.name ≤ b.name)

/-- Sort key for `order_by(published_at.desc())`: SQLite treats NULL as
smaller than every value, so null timestamps come last in descending
order. -/
def pubKey (r : ArticleRow) : WithBot ℚ :=
  match r.published_at with
  | some t => (t : WithBot ℚ)
  | none => ⊥

/-- `get_company_news` (database.py lines 167-171): the company's articles,
most recent first, limited. -/
def getCompanyNews (db : Db) (symbol : String) (limit : ℕ) : List ArticleRow :=
  ((db.articles.filter (fun r => r.symbol == strUpper symbol)).insertionSort
    (fun a b => pubKey b ≤ pubKey a)).take limit

/-- `list(set(...))` keeping first occurrences (CPython set order is
unspecified; no property here depends on it). -/
def dedupFirst (l : List String) : List String :=
  l.foldl (fun acc x => if x ∈ acc then acc else acc ++ [x]) []

/-- One entry of the `get_all_insights` result. -/
structure Insight where
  symbol : String
  company_name : String
  avg_sentiment : ℚ
  article_count : ℕ
  recent_classifications : List String
  top_insight : Option String
deriving DecidableEq

/-- The per-company body of `get_all_insights` (database.py lines 192-216):
`none` when the company has no enriched article among its 10 most recent. -/
def insightFor (db : Db) (company : Company) : Option Insight :=
  let articles := getCompanyNews db company.symbol 10
  let enriched_articles := articles.filter (fun a => a.sentiment_score.isSome)
  if enriched_articles.isEmpty then none
  else
    let avg_sentiment :=
      (enriched_articles.map (fun a => a.sentiment_score.getD 0)).sum /
        (enriched_articles.length : ℚ)
    let classifications := dedupFirst (enriched_articles.filterMap
      (fun a => match a.classification with
        | some s => if s = "" then none else some s
        | none => none))
    let top_insight := (enriched_articles.find? (fun a =>
        a.key_insights.isSome && a.market_impact == some "high")).bind
      (fun a => a.key_insights.map Insights.summary)
    some { symbol := company.symbol
           company_name := company.name
           avg_sentiment := pyRound 3 avg_sentiment
           article_count := enriched_articles.length
           recent_classifications := classifications.take 5
           top_insight := top_insight }

/-- The sort key of `get_all_insights`: `key=lambda x: abs(x["avg_sentiment"])`,
`reverse=True` — descending absolute average sentiment. -/
def insightOrder (a b : Insight) : Prop := |b.avg_sentiment| ≤ |a.avg_sentiment|

instance : DecidableRel insightOrder := fun _ _ =>
  inferInstanceAs (Decidable (_ ≤ _))

instance : IsTotal Insight insightOrder := ⟨fun _ _ => le_total _ _⟩

instance : IsTrans Insight insightOrder := ⟨fun _ _ _ hab hbc => le_trans hbc hab⟩

/-- `get_all_insights` (database.py lines 187-218): one entry per company
with at least one enriched recent article, sorted by descending absolute
average sentiment (Python's stable `sorted` with `key=abs(...)`,
`reverse=True`). -/
def getAllInsights (db : Db) : List Insight :=
  ((getAllCompanies db).filterMap (insightFor db)).insertionSort insightOrder

/-! ## Persistence invariants (C5) -/

/-- The (symbol, date) natural keys of the time-series collection. -/
def stockKeys (db : Db) : List (String × ℚ) := db.stocks.map (fun r => (r.symbol, r.date))

/-- At most one time-series record per (symbol, date). -/
def stockKeyUnique (db : Db) : Prop := (stockKeys db).Nodup

/-- The natural key `add_news_article` deduplicates on: the url, when it is
truthy (non-null and non-empty). -/
def urlOf (r : ArticleRow) : Option String :=
  match r.url with
  | some u => if u = "" then none else some u
  | none => none

def urlKeys (db : Db) : List String := db.articles.filterMap urlOf

/-- At most one text item per truthy url. -/
def urlUnique (db : Db) : Prop := (urlKeys db).Nodup

/-- One call into the persistence layer. -/
inductive DbOp where
  | upsert (data : CompanyIn) (now : Time)
  | addStock (symbol : String) (records : List StockIn)
  | addNews (symbol : String) (article : Article)
  | applyEnrichment (article_id : ℕ) (e : Enrichment) (now : Time)

/-- Run one persistence call against the store (a raised `IntegrityError`
is rolled back, leaving the store unchanged). -/
def applyOp (db : Db) : DbOp → Db
  | .upsert data now =>
      match upsertCompany db data now with
      | .ok (_, db') => db'
      | .error _ => db
  | .addStock symbol records => (addStockData db symbol records).1
  | .addNews symbol article => (addNewsArticle db symbol article).2
  | .applyEnrichment i e now => updateArticleEnrichment db i e now

def applyOps (db : Db) (ops : List DbOp) : Db := ops.foldl applyOp db

/-- A batch passed to `add_stock_data` carries pairwise-distinct dates.
(Within one call the duplicate check only sees previously committed rows,
so duplicate dates inside a single batch would each be inserted.) -/
def batchOk : DbOp → Prop
  | .addStock _ records => records.Pairwise (fun a b => a.date ≠ b.date)
  | _ => True

instance (op : DbOp) : Decidable (batchOk op) := by
  cases op <;> simp only [batchOk] <;> infer_instance

theorem upsert_ok_frame {db : Db} {data : CompanyIn} {now : Time} {c : Company} {db' : Db}
    (h : upsertCompany db data now = .ok (c, db')) :
    db'.stocks = db.stocks ∧ db'.articles = db.articles ∧
      db'.nextArticleId = db.nextArticleId := by
  simp only [upsertCompany] at h
  split at h
  · split at h
    · exact absurd h (by simp)
    · cases h
      exact ⟨rfl, rfl, rfl⟩
  · split at h
    · split at h
      · exact absurd h (by simp)
      · cases h
        exact ⟨rfl, rfl, rfl⟩
    · exact absurd h (by simp)

theorem updateFirst_map_eq {α β : Type} (p : α → Bool) (f : α → α) (g : α → β)
    (hg : ∀ x, g (f x) = g x) : ∀ l : List α, (updateFirst p f l).map g = l.map g := by
  intro l
  induction l with
  | nil => rfl
  | cons x xs ih =>
      simp only [updateFirst]
      split
      · simp [hg]
      · simp [ih]

theorem updateFirst_filterMap_eq {α β : Type} (p : α → Bool) (f : α → α) (g : α → Option β)
    (hg : ∀ x, g (f x) = g x) : ∀ l : List α, (updateFirst p f l).filterMap g = l.filterMap g := by
  intro l
  induction l with
  | nil => rfl
  | cons x xs ih =>
      simp only [updateFirst]
      split
      · simp [List.filterMap_cons, hg]
      · simp [List.filterMap_cons, ih]

theorem urlOf_eq_some {r : ArticleRow} {u : String} (h : urlOf r = some u) :
    r.url = some u ∧ u ≠ "" := by
  unfold urlOf at h
  split at h
  · next v heq =>
      split at h
      · exact absurd h (by simp)
      · next hv =>
          cases h
          exact ⟨heq, hv⟩
  · exact absurd h (by simp)

/-- `applyOp` preserves both natural-key invariants (given a well-formed
stock batch). -/
theorem applyOp_preserves (db : Db) (op : DbOp) (hb : batchOk op)
    (h1 : stockKeyUnique db) (h2 : urlUnique db) :
    stockKeyUnique (applyOp db op) ∧ urlUnique (applyOp db op) := by
  cases op with
  | upsert data now =>
      simp only [applyOp]
      split
      · next c db' h =>
          obtain ⟨hs, ha, _⟩ := upsert_ok_frame h
          exact ⟨by simpa [stockKeyUnique, stockKeys, hs] using h1,
                 by simpa [urlUnique, urlKeys, ha] using h2⟩
      · exact ⟨h1, h2⟩
  | addStock symbol records =>
      refine ⟨?_, ?_⟩
      · simp only [applyOp, addStockData, stockKeyUnique, stockKeys] at h1 ⊢
        rw [List.map_append, List.nodup_append]
        refine ⟨h1, ?_, ?_⟩
        · rw [List.map_map]
          have hpair := (hb.filter
            (fun r => !(db.stocks.any
              (fun s => s.symbol == strUpper symbol && decide (s.date = r.date)))))
          exact hpair.map _ (fun a b hab heq => hab (congrArg Prod.snd heq))
        · intro k hk hk'
          simp only [List.map_map, List.mem_map, Function.comp] at hk'
          obtain ⟨r, hr, rfl⟩ := hk'
          rw [List.mem_filter] at hr
          have hpred := hr.2
          simp only [Bool.not_eq_eq_eq_not, Bool.not_true, List.any_eq_false,
            Bool.and_eq_true, beq_iff_eq, decide_eq_true_eq, not_and] at hpred
          simp only [List.mem_map] at hk
          obtain ⟨s, hs, hkey⟩ := hk
          simp only [stockRowOf, Prod.mk.injEq] at hkey
          exact hpred s hs hkey.1 hkey.2
      · simpa [applyOp, addStockData, urlUnique, urlKeys] using h2
  | addNews symbol article =>
      simp only [applyOp, addNewsArticle]
      split
      · exact ⟨h1, h2⟩
      · next hdup =>
        constructor
        · simpa [stockKeyUnique, stockKeys] using h1
        · simp only [urlUnique, urlKeys, List.filterMap_append]
          rw [List.nodup_append]
          refine ⟨h2, ?_, ?_⟩
          · cases hurl : urlOf (articleRowOf db.nextArticleId symbol article) <;>
              simp [List.filterMap_cons, hurl]
          · intro u hu hu'
            simp only [List.filterMap_cons, List.filterMap_nil] at hu'
            rcases hurlrow : urlOf (articleRowOf db.nextArticleId symbol article) with _ | v
            · rw [hurlrow] at hu'
              simp at hu'
            · rw [hurlrow] at hu'
              simp only [List.mem_cons, List.not_mem_nil, or_false] at hu'
              subst hu'
              -- the pending row has a truthy url, so the dup lookup ran and missed
              have harticle : article.url = some u ∧ u ≠ "" := by
                have h := urlOf_eq_some hurlrow
                simpa [articleRowOf] using h
              have htruthy : article.url.getD "" ≠ "" := by
                rw [harticle.1]
                exact harticle.2
              rw [if_pos htruthy] at hdup
              simp only [List.mem_filterMap] at hu
              obtain ⟨r, hr, hru⟩ := hu
              have hfind := List.find?_eq_none.1 hdup r hr
              simp only [decide_eq_true_eq] at hfind
              exact hfind ((urlOf_eq_some hru).1.trans harticle.1.symm)
  | applyEnrichment i e now =>
      refine ⟨?_, ?_⟩
      · simpa [applyOp, updateArticleEnrichment, stockKeyUnique, stockKeys] using h1
      · have := updateFirst_filterMap_eq (fun r => r.id == i) (enrichRow e now) urlOf
          (fun r => rfl) db.articles
        simpa [applyOp, updateArticleEnrichment, urlUnique, urlKeys, this] using h2

/-- C5 counterexample: a single `add_stock_data` call whose batch repeats a
date inserts the duplicate twice (the duplicate check, run with
`autoflush=False`, sees only the state committed before the call), so the
store ends with two records for the same (symbol, date). -/
theorem c5_stock_batch_duplicate_counterexample :
    ¬ stockKeyUnique (addStockData emptyDb "A"
      [{ date := 0 }, { date := 0 }]).1 := by
  simp only [stockKeyUnique, stockKeys]
  decide

/-- C5 (amended): starting from the empty store, as long as every
`add_stock_data` batch carries pairwise-distinct dates, any sequence of
persistence calls keeps at most one time-series record per (symbol, date)
and at most one text item per truthy url; `add_stock_data` only ever
appends (never updates existing dates) and returns exactly the number of
rows actually inserted; and adding a text item whose url already exists
returns the existing row and leaves the store unchanged. -/
theorem persistence_natural_keys :
    (∀ ops : List DbOp, (∀ op ∈ ops, batchOk op) →
      stockKeyUnique (applyOps emptyDb ops) ∧ urlUnique (applyOps emptyDb ops)) ∧
    (∀ (db : Db) (symbol : String) (rs : List StockIn), ∃ newRows : List StockRow,
      (addStockData db symbol rs).1.stocks = db.stocks ++ newRows ∧
      (addStockData db symbol rs).2 = newRows.length ∧
      ∀ row ∈ newRows, (row.symbol, row.date) ∉ stockKeys db) ∧
    (∀ (db : Db) (symbol : String) (a : Article) (u : String) (existing : ArticleRow),
      a.url = some u → u ≠ "" →
      db.articles.find? (fun r => decide (r.url = a.url)) = some existing →
      addNewsArticle db symbol a = (existing, db)) := by
  refine ⟨?_, ?_, ?_⟩
  · have main : ∀ (ops : List DbOp) (db : Db), (∀ op ∈ ops, batchOk op) →
        stockKeyUnique db → urlUnique db →
        stockKeyUnique (applyOps db ops) ∧ urlUnique (applyOps db ops) := by
      intro ops
      induction ops with
      | nil => exact fun db _ h1 h2 => ⟨h1, h2⟩
      | cons op rest ih =>
          intro db hops h1 h2
          have h := applyOp_preserves db op (hops op (by simp)) h1 h2
          exact ih (applyOp db op) (fun o ho => hops o (by simp [ho])) h.1 h.2
    intro ops hops
    exact main ops emptyDb hops (by simp [stockKeyUnique, stockKeys, emptyDb])
      (by simp [urlUnique, urlKeys, emptyDb])
  · intro db symbol rs
    simp only [addStockData]
    refine ⟨_, rfl, by simp, ?_⟩
    intro row hrow
    simp only [List.mem_map] at hrow
    obtain ⟨r, hr, rfl⟩ := hrow
    rw [List.mem_filter] at hr
    have hpred := hr.2
    simp only [Bool.not_eq_eq_eq_not, Bool.not_true, List.any_eq_false,
      Bool.and_eq_true, beq_iff_eq, decide_eq_true_eq, not_and] at hpred
    intro hmem
    simp only [stockKeys, List.mem_map] at hmem
    obtain ⟨s, hs, hkey⟩ := hmem
    simp only [stockRowOf, Prod.mk.injEq] at hkey
    exact hpred s hs hkey.1 hkey.2
  · intro db symbol a u existing hurl hne hfind
    have htruthy : a.url.getD "" ≠ "" := by
      rw [hurl]
      exact hne
    simp only [addNewsArticle, if_pos htruthy, hfind]

/-- Witness for C5: a concrete sequence of persistence calls keeps both
natural-key invariants, and a second add of the same url returns the
already-stored row unchanged. -/
theorem persistence_natural_keys_witness :
    let r1 : StockIn := { date := 1 }
    let r2 : StockIn := { date := 2 }
    let art : Article :=
      { title := "t", source := none, author := none, url := some "https://example.com/x",
        published_at := none, content := "c" }
    let ops : List DbOp :=
      [.addStock "acme" [r1, r2], .addStock "ACME" [r1], .addNews "ACME" art]
    (∀ op ∈ ops, batchOk op) ∧
    stockKeyUnique (applyOps emptyDb ops) ∧ urlUnique (applyOps emptyDb ops) ∧
    addNewsArticle (applyOps emptyDb ops) "ACME" art =
      (articleRowOf 1 "ACME" art, applyOps emptyDb ops) := by
  refine ⟨by decide, (persistence_natural_keys.1 _ (by decide)).1,
    (persistence_natural_keys.1 _ (by decide)).2,
    persistence_natural_keys.2.2 _ "ACME" _ "https://example.com/x" _ rfl
      (by decide) (by decide)⟩

/-! ## C6: upsert frame and idempotence -/

theorem mergeField_of_some {α : Type} {inc : Option α} (sto : Option α)
    (h : inc ≠ none) : mergeField inc sto = inc := by
  cases inc with
  | none => exact absurd rfl h
  | some v => rfl

theorem mergeField_of_none {α : Type} {inc : Option α} (sto : Option α)
    (h : inc = none) : mergeField inc sto = sto := by
  subst h
  rfl

theorem mergeField_self {α : Type} (v : Option α) : mergeField v v = v := by
  cases v <;> rfl

theorem updateFirst_length {α : Type} (p : α → Bool) (f : α → α) :
    ∀ l : List α, (updateFirst p f l).length = l.length := by
  intro l
  induction l with
  | nil => rfl
  | cons x xs ih =>
      simp only [updateFirst]
      split <;> simp [ih]

instance {e a : Type} [DecidableEq e] [DecidableEq a] : DecidableEq (Except e a) := fun x y =>
  match x, y with
  | .ok v, .ok w => if h : v = w then isTrue (by rw [h]) else isFalse (by simp [h])
  | .error v, .error w => if h : v = w then isTrue (by rw [h]) else isFalse (by simp [h])
  | .ok _, .error _ => isFalse (by simp)
  | .error _, .ok _ => isFalse (by simp)

/-- The updated store returned by the update branch of `upsert_company`. -/
def upsertResultDb (db : Db) (data : CompanyIn) (merged : Company) : Db :=
  let p := fun (c : Company) => c.symbol == strUpper (data.symbol.getD "")
  { db with companies := updateFirst p (fun _ => merged) db.companies }

/-- C6 counterexample: with a non-uppercase symbol the canonical-key lookup
misses the stored row, so the second upsert of the very same payload tries a
duplicate insert and raises `IntegrityError` instead of idempotently
updating the record and bumping its timestamp. -/
theorem c6_lowercase_double_upsert_counterexample :
    (upsertCompany emptyDb { symbol := some "aa", name := some "N" } 0).map
      (fun p => upsertCompany p.2 { symbol := some "aa", name := some "N" } 1) =
      .ok (.error "IntegrityError") := by decide

/-- C6 (amended): when the incoming payload matches a stored record under
the upsert's uppercased lookup and does not rename it, the upsert succeeds,
overwrites exactly the fields whose incoming value is non-null, keeps every
null/absent field, bumps `updated_at`, keeps `created_at`, and changes no
record count; and for a payload whose symbol is already uppercase, a second
upsert with the same fields leaves a single record with identical values,
only `updated_at` advanced. -/
theorem upsert_frame_and_idempotence :
    (∀ (db : Db) (data : CompanyIn) (now : Time) (existing : Company),
      db.companies.find? (fun c => c.symbol == strUpper (data.symbol.getD "")) =
        some existing →
      (data.symbol = none ∨ data.symbol = some existing.symbol) →
      upsertCompany db data now = .ok (mergeCompany existing data now,
        upsertResultDb db data (mergeCompany existing data now)) ∧
      (mergeCompany existing data now).updated_at = now ∧
      (mergeCompany existing data now).created_at = existing.created_at ∧
      (upsertResultDb db data (mergeCompany existing data now)).companies.length =
        db.companies.length ∧
      (data.name = none → (mergeCompany existing data now).name = existing.name) ∧
      (∀ v, data.name = some v → (mergeCompany existing data now).name = v) ∧
      (data.sector = none → (mergeCompany existing data now).sector = existing.sector) ∧
      (data.sector ≠ none → (mergeCompany existing data now).sector = data.sector) ∧
      (data.industry = none → (mergeCompany existing data now).industry = existing.industry) ∧
      (data.industry ≠ none → (mergeCompany existing data now).industry = data.industry) ∧
      (data.description = none →
        (mergeCompany existing data now).description = existing.description) ∧
      (data.description ≠ none →
        (mergeCompany existing data now).description = data.description) ∧
      (data.market_cap = none →
        (mergeCompany existing data now).market_cap = existing.market_cap) ∧
      (data.market_cap ≠ none →
        (mergeCompany existing data now).market_cap = data.market_cap) ∧
      (data.pe_ratio = none → (mergeCompany existing data now).pe_ratio = existing.pe_ratio) ∧
      (data.pe_ratio ≠ none → (mergeCompany existing data now).pe_ratio = data.pe_ratio) ∧
      (data.dividend_yield = none →
        (mergeCompany existing data now).dividend_yield = existing.dividend_yield) ∧
      (data.dividend_yield ≠ none →
        (mergeCompany existing data now).dividend_yield = data.dividend_yield) ∧
      (data.fifty_two_week_high = none →
        (mergeCompany existing data now).fifty_two_week_high = existing.fifty_two_week_high) ∧
      (data.fifty_two_week_high ≠ none →
        (mergeCompany existing data now).fifty_two_week_high = data.fifty_two_week_high) ∧
      (data.fifty_two_week_low = none →
        (mergeCompany existing data now).fifty_two_week_low = existing.fifty_two_week_low) ∧
      (data.fifty_two_week_low ≠ none →
        (mergeCompany existing data now).fifty_two_week_low = data.fifty_two_week_low) ∧
      (data.enriched_summary = none →
        (mergeCompany existing data now).enriched_summary = existing.enriched_summary) ∧
      (data.enriched_summary ≠ none →
        (mergeCompany existing data now).enriched_summary = data.enriched_summary)) ∧
    (∀ (data : CompanyIn) (s n : String) (t1 t2 : Time),
      data.symbol = some s → strUpper s = s → data.name = some n →
      upsertCompany emptyDb data t1 =
        .ok (insertCompanyRow s n data t1,
          { emptyDb with companies := [insertCompanyRow s n data t1] }) ∧
      upsertCompany { emptyDb with companies := [insertCompanyRow s n data t1] } data t2 =
        .ok ({ insertCompanyRow s n data t1 with updated_at := t2 },
          { emptyDb with companies := [{ insertCompanyRow s n data t1 with
              updated_at := t2 }] })) := by
  constructor
  · intro db data now existing hfind hsym
    have hmsym : (mergeCompany existing data now).symbol = existing.symbol := by
      rcases hsym with h | h <;> simp [mergeCompany, h]
    refine ⟨?_, rfl, rfl, ?_, ?_, ?_, ?_, ?_, ?_, ?_, ?_, ?_, ?_,
      ?_, ?_, ?_, ?_, ?_, ?_, ?_, ?_, ?_, ?_, ?_⟩
    · simp only [upsertCompany, upsertResultDb, hfind]
      rw [if_neg]
      intro hcon
      exact hcon.1 hmsym
    · simp [upsertResultDb, updateFirst_length]
    · intro h
      simp [mergeCompany, h]
    · intro v h
      simp [mergeCompany, h]
    all_goals
      first
      | (intro h; simp [mergeCompany, mergeField_of_none _ h])
      | (intro h; simp [mergeCompany, mergeField_of_some _ h])
  · intro data s n t1 t2 hs hup hn
    have hfirst : upsertCompany emptyDb data t1 =
        .ok (insertCompanyRow s n data t1,
          { emptyDb with companies := [insertCompanyRow s n data t1] }) := by
      simp [upsertCompany, emptyDb, hs, hn]
    refine ⟨hfirst, ?_⟩
    have hfind : ([insertCompanyRow s n data t1].find?
        (fun c => c.symbol == strUpper (data.symbol.getD ""))) =
        some (insertCompanyRow s n data t1) := by
      simp [List.find?, hs, hup, insertCompanyRow]
    have hmerge : mergeCompany (insertCompanyRow s n data t1) data t2 =
        { insertCompanyRow s n data t1 with updated_at := t2 } := by
      simp [mergeCompany, insertCompanyRow, hs, hn, mergeField_self]
    simp only [upsertCompany, hfind]
    rw [if_neg (by simp [hmerge])]
    rw [hmerge]
    simp [updateFirst, hs, hup, insertCompanyRow]

/-- Witness for C6: a concrete update overwrites the non-null incoming
field, keeps the null ones, and a double insert-then-update with an
uppercase symbol is idempotent up to the timestamp. -/
theorem upsert_frame_and_idempotence_witness :
    let data : CompanyIn := { symbol := some "ACME", name := some "Acme Corp" }
    upsertCompany emptyDb data 1 =
      .ok (insertCompanyRow "ACME" "Acme Corp" data 1,
        { emptyDb with companies := [insertCompanyRow "ACME" "Acme Corp" data 1] }) ∧
    upsertCompany { emptyDb with
        companies := [insertCompanyRow "ACME" "Acme Corp" data 1] } data 2 =
      .ok ({ insertCompanyRow "ACME" "Acme Corp" data 1 with updated_at := 2 },
        { emptyDb with companies := [{ insertCompanyRow "ACME" "Acme Corp" data 1 with
            updated_at := 2 }] }) := by
  exact upsert_frame_and_idempotence.2 _ "ACME" "Acme Corp" 1 2 rfl (by decide) rfl

/-! ## C8: aggregation membership and ordering -/

/-- A company's enriched articles among its 10 most recent ones — the
population `get_all_insights` aggregates over. -/
def enrichedRecent (db : Db) (c : Company) : List ArticleRow :=
  (getCompanyNews db c.symbol 10).filter (fun a => a.sentiment_score.isSome)

theorem insightFor_isSome_iff (db : Db) (c : Company) :
    (insightFor db c).isSome ↔ enrichedRecent db c ≠ [] := by
  rw [insightFor, enrichedRecent]
  by_cases h : ((getCompanyNews db c.symbol 10).filter
      (fun a => a.sentiment_score.isSome)).isEmpty
  · simp [h, List.isEmpty_iff.1 h]
  · simp only [h, Bool.false_eq_true, if_false, Option.isSome_some, true_iff]
    intro hcon
    rw [hcon] at h
    exact h rfl

theorem insightFor_some_fields {db : Db} {c : Company} {y : Insight}
    (h : insightFor db c = some y) :
    y.symbol = c.symbol ∧
    y.avg_sentiment = pyRound 3
      (((enrichedRecent db c).map (fun a => a.sentiment_score.getD 0)).sum /
        ((enrichedRecent db c).length : ℚ)) ∧
    y.article_count = (enrichedRecent db c).length := by
  rw [insightFor] at h
  split at h
  · exact absurd h (by simp)
  · cases h
    exact ⟨rfl, rfl, rfl⟩

theorem countP_filterMap_insight_zero (db : Db) (sym : String) :
    ∀ L : List Company, (∀ x ∈ L, x.symbol ≠ sym) →
      ((L.filterMap (insightFor db)).countP (fun e => e.symbol == sym)) = 0 := by
  intro L
  induction L with
  | nil => intro; rfl
  | cons x xs ih =>
      intro hall
      rw [List.filterMap_cons]
      cases hfx : insightFor db x with
      | none => exact ih (fun z hz => hall z (List.mem_cons_of_mem _ hz))
      | some y =>
          rw [List.countP_cons]
          have hy : y.symbol = x.symbol := (insightFor_some_fields hfx).1
          have hne : (y.symbol == sym) = false := by
            simp [hy]
            exact hall x (List.mem_cons_self _ _)
          simp only [hne, if_false]
          simpa using ih (fun z hz => hall z (List.mem_cons_of_mem _ hz))

theorem countP_filterMap_insight_one (db : Db) (c : Company) :
    ∀ L : List Company, (L.map (fun x => x.symbol)).Nodup → c ∈ L →
      ((L.filterMap (insightFor db)).countP (fun e => e.symbol == c.symbol)) =
        if (insightFor db c).isSome then 1 else 0 := by
  intro L
  induction L with
  | nil => intro _ h; cases h
  | cons x xs ih =>
      intro hnd hmem
      have hnd2 := hnd
      rw [List.map_cons, List.nodup_cons] at hnd2
      rcases List.mem_cons.1 hmem with rfl | hmem2
      · -- the head is c: no tail company shares its symbol
        have htail : ∀ z ∈ xs, z.symbol ≠ c.symbol := by
          intro z hz hcon
          exact hnd2.1 (hcon ▸ List.mem_map_of_mem (fun x => x.symbol) hz)
        rw [List.filterMap_cons]
        cases hfx : insightFor db c with
        | none =>
            simp only [Option.isSome_none, Bool.false_eq_true, if_false]
            exact countP_filterMap_insight_zero db c.symbol xs htail
        | some y =>
            rw [List.countP_cons]
            have hy : (y.symbol == c.symbol) = true := by
              simp [(insightFor_some_fields hfx).1]
            have hzero := countP_filterMap_insight_zero db c.symbol xs htail
            simp [hy, hzero]
      · -- c sits in the tail; the head has a different symbol
        have hx : x.symbol ≠ c.symbol := by
          intro hcon
          exact hnd2.1 (by
            rw [hcon]
            exact List.mem_map_of_mem (fun x => x.symbol) hmem2)
        rw [List.filterMap_cons]
        cases hfx : insightFor db x with
        | none => exact ih hnd2.2 hmem2
        | some y =>
            rw [List.countP_cons]
            have hy : (y.symbol == c.symbol) = false := by
              simp [(insightFor_some_fields hfx).1]
              exact hx
            have hrest := ih hnd2.2 hmem2
            simp [hy, hrest]

/-- C8: `get_all_insights` is sorted by descending absolute average
sentiment; every company with at least one enriched recent article
contributes exactly one entry; companies with none are omitted; and each
entry's average is the (rounded) mean sentiment over that company's
enriched recent articles. -/
theorem insights_membership_and_order (db : Db)
    (hpk : (db.companies.map (fun c => c.symbol)).Nodup) :
    List.Pairwise insightOrder (getAllInsights db) ∧
    (∀ c ∈ db.companies,
      (enrichedRecent db c ≠ [] →
        (getAllInsights db).countP (fun e => e.symbol == c.symbol) = 1) ∧
      (enrichedRecent db c = [] →
        (getAllInsights db).countP (fun e => e.symbol == c.symbol) = 0)) ∧
    (∀ e ∈ getAllInsights db, ∃ c ∈ db.companies, e.symbol = c.symbol ∧
      e.avg_sentiment = pyRound 3
        (((enrichedRecent db c).map (fun a => a.sentiment_score.getD 0)).sum /
          ((enrichedRecent db c).length : ℚ)) ∧
      e.article_count = (enrichedRecent db c).length) := by
  have hperm1 : List.Perm (getAllInsights db)
      ((getAllCompanies db).filterMap (insightFor db)) :=
    List.perm_insertionSort insightOrder _
  have hperm2 : List.Perm (getAllCompanies db) db.companies :=
    List.perm_insertionSort _ _
  have hndAll : ((getAllCompanies db).map (fun x => x.symbol)).Nodup :=
    ((hperm2.map (fun x => x.symbol)).nodup_iff).2 hpk
  refine ⟨?_, ?_, ?_⟩
  · exact List.sorted_insertionSort insightOrder _
  · intro c hc
    have hcmem : c ∈ getAllCompanies db := hperm2.mem_iff.2 hc
    have hcount := countP_filterMap_insight_one db c (getAllCompanies db) hndAll hcmem
    rw [hperm1.countP_eq]
    constructor
    · intro hne
      rw [hcount, if_pos ((insightFor_isSome_iff db c).2 hne)]
    · intro hempty
      rw [hcount, if_neg]
      rw [insightFor_isSome_iff db c]
      simp [hempty]
  · intro e he
    have he2 : e ∈ (getAllCompanies db).filterMap (insightFor db) :=
      hperm1.mem_iff.1 he
    rw [List.mem_filterMap] at he2
    obtain ⟨c, hc, hfc⟩ := he2
    obtain ⟨h1, h2, h3⟩ := insightFor_some_fields hfc
    exact ⟨c, hperm2.mem_iff.1 hc, h1, h2, h3⟩

/-- Witness for C8: three companies with mean sentiments 0.1, -0.9 and 0.4
(the claim's example) yield a list ordered by descending absolute mean. -/
theorem insights_membership_and_order_witness :
    let mkc : String → Company := fun s =>
      { symbol := s, name := s, sector := none, industry := none, description := none,
        market_cap := none, pe_ratio := none, dividend_yield := none,
        fifty_two_week_high := none, fifty_two_week_low := none,
        enriched_summary := none, created_at := 0, updated_at := 0 }
    let mkr : ℕ → String → ℚ → ArticleRow := fun i s q =>
      { id := i, symbol := s, title := "t", source := none, author := none,
        url := none, published_at := some (i : ℚ), content := "c",
        sentiment_score := some q, sentiment_label := some "neutral",
        classification := none, key_insights := none, market_impact := none,
        enriched_at := some 0 }
    let db : Db :=
      { companies := [mkc "A", mkc "B", mkc "C"],
        stocks := [],
        articles := [mkr 1 "A" 0.1, mkr 2 "B" (-0.9), mkr 3 "C" 0.4],
        nextArticleId := 4 }
    (db.companies.map (fun c => c.symbol)).Nodup ∧
    List.Pairwise insightOrder (getAllInsights db) := by
  refine ⟨by decide, (insights_membership_and_order _ (by decide)).1⟩

/-! ## Unstructured source (data_sources.py lines 165-319) -/

/-- One element of NewsAPI's `articles` array. -/
structure RawArticle where
  title : Option String
  sourceName : Option String
  author : Option String
  url : Option String
  publishedAt : Option String
  content : Option String
  description : Option String

/-- The visible outcome of the NewsAPI HTTP call: a raised `httpx.HTTPError`,
a JSON body (status, message, articles), or any other exception. -/
inductive NewsApiOutcome
  | httpError (msg : String)
  | response (status : String) (message : Option String) (articles : List RawArticle)
  | otherError (msg : String)

/-- The per-article normalization of `fetch_news_articles`
(data_sources.py lines 211-219); `article.get("content") or
article.get("description", "")` falls through on null or empty content. -/
def transformArticle (parseDate : String → Option Time) (a : RawArticle) : Article :=
  { title := a.title.getD ""
    source := a.sourceName
    author := a.author
    url := a.url
    published_at := a.publishedAt.bind parseDate
    content :=
      match a.content with
      | some c => if c = "" then a.description.getD "" else c
      | none => a.description.getD "" }

/-- `_get_mock_news` (data_sources.py lines 269-319): the fixed list of 5
demonstration articles (timestamps relative to the current time). -/
def getMockNews (company_name symbol : String) (now : Time) : List Article :=
  [{ title := company_name ++ " Reports Strong Q4 Earnings, Beats Analyst Expectations"
     source := some "Financial Times"
     author := some "Market Reporter"
     url := some ("https://example.com/news/" ++ strLower symbol ++ "-earnings")
     published_at := some (now - 86400 * 1)
     content := company_name ++ " announced quarterly earnings that exceeded Wall Street " ++
       "expectations. Revenue grew 15% year-over-year, driven by strong demand in core " ++
       "business segments. The company also raised its full-year guidance, citing improved " ++
       "market conditions and successful cost optimization initiatives." },
   { title := company_name ++ " Announces New AI-Powered Product Line"
     source := some "TechCrunch"
     author := some "Tech Editor"
     url := some ("https://example.com/news/" ++ strLower symbol ++ "-ai-product")
     published_at := some (now - 86400 * 3)
     content := "In a move to strengthen its competitive position, " ++ company_name ++
       " unveiled a new suite of AI-powered products today. The company\'s CEO stated that " ++
       "this represents a significant investment in emerging technologies and positions the " ++
       "firm for long-term growth in the rapidly evolving market landscape." },
   { title := "Analysts Upgrade " ++ company_name ++ " Following Market Expansion"
     source := some "Bloomberg"
     author := some "Senior Analyst"
     url := some ("https://example.com/news/" ++ strLower symbol ++ "-upgrade")
     published_at := some (now - 86400 * 5)
     content := "Several major investment banks have upgraded their rating on " ++
       company_name ++ " stock following the company\'s successful expansion into Asian " ++
       "markets. Analysts cite strong execution and favorable regulatory environment as " ++
       "key factors. Price targets have been raised by an average of 12%." },
   { title := company_name ++ " Faces Regulatory Scrutiny Over Data Practices"
     source := some "Reuters"
     author := some "Legal Correspondent"
     url := some ("https://example.com/news/" ++ strLower symbol ++ "-regulatory")
     published_at := some (now - 86400 * 2)
     content := "Regulators have opened an inquiry into " ++ company_name ++ "\'s data " ++
       "handling practices. While the company maintains it operates in full compliance " ++
       "with all applicable laws, investors are watching closely. Legal experts suggest " ++
       "the investigation could take several months to conclude." },
   { title := company_name ++ " CEO Discusses Future Strategy in Investor Call"
     source := some "CNBC"
     author := some "Business Reporter"
     url := some ("https://example.com/news/" ++ strLower symbol ++ "-strategy")
     published_at := some (now - 86400 * 4)
     content := "During the latest investor call, " ++ company_name ++ "\'s leadership " ++
       "outlined ambitious plans for the coming year. Key initiatives include expanding " ++
       "digital capabilities, pursuing strategic acquisitions, and increasing R&D spending " ++
       "by 20%. Management expressed confidence in achieving double-digit growth." }]

/-- `fetch_news_articles` (data_sources.py lines 165-229): without a
credential it returns the mock data before ever touching the cache; with
one it consults the cache, transforms a good response (caching it), and
falls back to the mock data on any error. -/
def fetchNewsArticles (hasKey : Bool) (company_name symbol : String)
    (days max_articles : ℕ) (cache : Cache (List Article)) (now : Time)
    (api : NewsApiOutcome) (parseDate : String → Option Time) :
    List Article × Cache (List Article) :=
  if !hasKey then
    (getMockNews company_name symbol now, cache)
  else
    let cache_key := "news_" ++ symbol ++ "_" ++ toString days
    match getCached cache cache_key now with
    | some cached => (cached, cache)
    | none =>
        match api with
        | .response status _ articles =>
            if status = "ok" then
              let result := articles.map (transformArticle parseDate)
              (result, setCache cache cache_key result now)
            else (getMockNews company_name symbol now, cache)
        | .httpError _ => (getMockNews company_name symbol now, cache)
        | .otherError _ => (getMockNews company_name symbol now, cache)

/-- C10: with no news credential configured, the unstructured fetch returns
exactly the fixed 5-article mock list for the given company name and
symbol — independent of `max_articles`, `days`, the cache contents and the
upstream — and passes the cache through untouched (neither read nor
written). -/
theorem no_credential_news_is_mock (company_name symbol : String)
    (days max_articles : ℕ) (cache : Cache (List Article)) (now : Time)
    (api : NewsApiOutcome) (parseDate : String → Option Time) :
    fetchNewsArticles false company_name symbol days max_articles cache now api parseDate =
      (getMockNews company_name symbol now, cache) ∧
    (getMockNews company_name symbol now).length = 5 :=
  ⟨rfl, rfl⟩

/-! ## Pipeline orchestrator (pipeline.py)

Each network-facing step is driven by an oracle in `Env` whose
`Except.error` value models a raised exception carrying `str(e)`; the
per-call index of `enrichArticle` models that distinct calls of the same
coroutine may fail independently. -/

/-- The recognized pipeline options with their defaults
(pipeline.py lines 93-168, 254-267). -/
structure Options where
  fetch_stock : Bool := true
  fetch_news : Bool := true
  enrich_with_llm : Bool := true
  stock_days : ℕ := 30
  news_days : ℕ := 7
  max_articles : ℕ := 10

/-- The outcomes of the awaited calls made by one run. -/
structure Env where
  fetchCompany : Except String (Option CompanyIn)
  fetchStock : ℕ → Except String (List StockIn)
  fetchNews : String → ℕ → ℕ → Except String (List Article)
  enrichArticle : ℕ → Article → Except String Enrichment
  generateSummary : CompanyIn → List Article → Except String String
  now : Time

/-- `PipelineResult` (pipeline.py lines 26-56). -/
structure PipelineResult where
  status : String := "pending"
  symbol : String := ""
  steps_completed : List String := []
  current_step : Option String := none
  error : Option String := none
  started_at : Time := 0
  completed_at : Option Time := none
  articles_ingested : ℕ := 0
  articles_enriched : ℕ := 0
  stock_records_added : ℕ := 0
deriving DecidableEq

/-- The description truncation in `_clean_company_data`
(pipeline.py lines 247-249). -/
def truncateDescription : Option String → Option String
  | some s => if s.length > 2000 then some (s.take 2000 ++ "...") else some s
  | none => none

/-- `_clean_company_data` (pipeline.py lines 238-251): dropping null values
is the identity in the `Option` representation; then default the symbol and
name and truncate a long description. -/
def cleanCompanyData (symbol : String) (data : CompanyIn) : CompanyIn :=
  { data with
    symbol := some (data.symbol.getD symbol)
    name := some (data.name.getD symbol)
    description := truncateDescription data.description }

/-- The minimal fallback record of `_step_fetch_company`
(pipeline.py lines 133-139). -/
def fallbackCompanyData (symbol : String) : CompanyIn :=
  { symbol := some symbol, name := some symbol, sector := some "Unknown",
    description := some "Company data not available" }

/-- What step 1 stores in `self.company_data`. -/
def step1Company (symbol : String) : Option CompanyIn → CompanyIn
  | some d => cleanCompanyData symbol d
  | none => fallbackCompanyData symbol

/-- `company_name = self.company_data.get("name", self.symbol)`. -/
def pipelineCompanyName (symbol : String) (dOpt : Option CompanyIn) : String :=
  (step1Company symbol dOpt).name.getD symbol

/-- The loop of `_step_enrich_articles` (pipeline.py lines 181-196): each
item's enrichment failure is caught, the item is kept with a null
enrichment, and only successes bump the counter. -/
def enrichStep (env : Env) : ℕ → List Article → List (Article × Option Enrichment) × ℕ
  | _, [] => ([], 0)
  | i, a :: rest =>
      match env.enrichArticle i a with
      | .ok e =>
          let r := enrichStep env (i + 1) rest
          ((a, some e) :: r.1, r.2 + 1)
      | .error _ =>
          let r := enrichStep env (i + 1) rest
          ((a, none) :: r.1, r.2)

/-- `self.enriched_articles` after step 4 (empty when the step is skipped,
in which case step 6 persists no articles). -/
def pipelineItems (opts : Options) (env : Env) (news : List Article) :
    List (Article × Option Enrichment) :=
  if opts.enrich_with_llm && !news.isEmpty then (enrichStep env 0 news).1 else []

/-- The `articles_enriched` counter after step 4. -/
def pipelineEnrichedCount (opts : Options) (env : Env) (news : List Article) : ℕ :=
  if opts.enrich_with_llm && !news.isEmpty then (enrichStep env 0 news).2 else 0

/-- `self.company_data` after step 5. -/
def pipelineFinalCompany (opts : Options) (company_data : CompanyIn) (summ : String) :
    CompanyIn :=
  if opts.enrich_with_llm then { company_data with enriched_summary := some summ }
  else company_data

/-- The article loop of `_step_persist_data` (pipeline.py lines 230-233). -/
def persistArticles (symbol : String) (now : Time) :
    Db → List (Article × Option Enrichment) → Db
  | db, [] => db
  | db, (a, enr) :: rest =>
      let pr := addNewsArticle db symbol a
      let db2 :=
        match enr with
        | some e => updateArticleEnrichment pr.2 pr.1.id e now
        | none => pr.2
      persistArticles symbol now db2 rest

/-- `_step_persist_data` (pipeline.py lines 215-236): upsert the company
(the one sub-operation that can raise, before anything is committed), add
the stock batch when non-empty, then add each article and apply its
enrichment.  Returns the new store and the stock-insert count (0 when the
batch was empty, matching the untouched counter). -/
def persistData (db : Db) (symbol : String) (company_data : CompanyIn)
    (stock_data : List StockIn) (items : List (Article × Option Enrichment))
    (now : Time) : Except String (Db × ℕ) :=
  match upsertCompany db company_data now with
  | .error e => .error e
  | .ok (_, db1) =>
      let sdb := if stock_data.isEmpty then (db1, 0) else addStockData db1 symbol stock_data
      .ok (persistArticles symbol now sdb.1 items, sdb.2)

/-- The `try` body of `CompanyIntelligencePipeline.run`
(pipeline.py lines 83-120) with the mutations of `self.result` threaded
through; an `Except.error` carries the raised message together with the
result state at the raise point. -/
def runSteps (symbolArg : String) (opts : Options) (env : Env) (db : Db)
    (tstart : Time) : Except (String × PipelineResult) (PipelineResult × Db) :=
  let symbol := strUpper symbolArg
  let r0 : PipelineResult := { status := "running", symbol := symbol, started_at := tstart }
  -- Step 1: fetch company overview (always executed)
  let r1 := { r0 with current_step := some "fetch_company_data" }
  match env.fetchCompany with
  | .error e => .error (e, r1)
  | .ok dOpt =>
    let company_data := step1Company symbol dOpt
    let r1d := { r1 with steps_completed := r1.steps_completed ++ ["fetch_company_data"] }
    -- Step 2: fetch stock data
    let step2 : Except (String × PipelineResult) (List StockIn × PipelineResult) :=
      if opts.fetch_stock then
        let r := { r1d with current_step := some "fetch_stock_prices" }
        match env.fetchStock opts.stock_days with
        | .error e => .error (e, r)
        | .ok stock =>
            .ok (stock, { r with steps_completed := r.steps_completed ++ ["fetch_stock_prices"] })
      else .ok ([], r1d)
    match step2 with
    | .error p => .error p
    | .ok (stock_data, r2) =>
      -- Step 3: fetch news articles
      let company_name := company_data.name.getD symbol
      let step3 : Except (String × PipelineResult) (List Article × PipelineResult) :=
        if opts.fetch_news then
          let r := { r2 with current_step := some "fetch_news" }
          match env.fetchNews company_name opts.news_days opts.max_articles with
          | .error e => .error (e, r)
          | .ok news =>
              .ok (news, { r with
                articles_ingested := news.length,
                steps_completed := r.steps_completed ++ ["fetch_news"] })
        else .ok ([], r2)
      match step3 with
      | .error p => .error p
      | .ok (news_articles, r3) =>
        -- Step 4: enrich articles (per-item failures are caught inside)
        let step4 : List (Article × Option Enrichment) × PipelineResult :=
          if opts.enrich_with_llm && !news_articles.isEmpty then
            let r := { r3 with current_step := some "enrich_articles" }
            let er := enrichStep env 0 news_articles
            (er.1, { r with
              articles_enriched := er.2,
              steps_completed := r.steps_completed ++ ["enrich_articles"] })
          else ([], r3)
        let enriched_articles := step4.1
        let r4 := step4.2
        -- Step 5: generate company summary
        let step5 : Except (String × PipelineResult) (CompanyIn × PipelineResult) :=
          if opts.enrich_with_llm then
            let r := { r4 with current_step := some "generate_summary" }
            match env.generateSummary company_data (enriched_articles.map (fun x => x.1)) with
            | .error e => .error (e, r)
            | .ok summary =>
                .ok ({ company_data with enriched_summary := some summary },
                  { r with steps_completed := r.steps_completed ++ ["generate_summary"] })
          else .ok (company_data, r4)
        match step5 with
        | .error p => .error p
        | .ok (company_data5, r5) =>
          -- Step 6: persist everything
          let r6 := { r5 with current_step := some "persist_data" }
          match persistData db symbol company_data5 stock_data enriched_articles env.now with
          | .error e => .error (e, r6)
          | .ok (db', count) =>
              .ok ({ r6 with
                stock_records_added := count,
                steps_completed := r6.steps_completed ++ ["persist_data"] }, db')

/-- `CompanyIntelligencePipeline.run` (pipeline.py lines 83-120): a clean
traversal ends `completed`; any exception out of steps 1-3, 5 or 6 is
caught once, marking the run `failed` with the message verbatim.  A raise
leaves the store untouched: steps 1-5 never write, and the only raising
sub-operation of step 6 is the initial upsert, whose failed insert is
rolled back. -/
def pipelineRun (symbolArg : String) (opts : Options) (env : Env) (db : Db)
    (tstart tdone : Time) : PipelineResult × Db :=
  match runSteps symbolArg opts env db tstart with
  | .ok (r, db') => ({ r with status := "completed", completed_at := some tdone }, db')
  | .error (e, r) =>
      ({ r with
        status := "failed",
        error := some e,
        completed_at := some tdone }, db)

/-! ## C2: run status transitions -/

/-- The success path of `run`: when every enabled step's call returns
normally (per-item enrichment outcomes arbitrary), the run ends `completed`
with all enabled steps recorded and the persisted store returned. -/
theorem pipelineRun_success_eq (symbolArg : String) (opts : Options) (env : Env)
    (db : Db) (t0 t1 : Time) (dOpt : Option CompanyIn) (stock : List StockIn)
    (news : List Article) (summ : String) (db' : Db) (count : ℕ)
    (h1 : env.fetchCompany = .ok dOpt)
    (hstock : (if opts.fetch_stock then env.fetchStock opts.stock_days else .ok []) = .ok stock)
    (hnews : (if opts.fetch_news then
        env.fetchNews (pipelineCompanyName (strUpper symbolArg) dOpt)
          opts.news_days opts.max_articles
      else .ok []) = .ok news)
    (hsum : (if opts.enrich_with_llm then
        env.generateSummary (step1Company (strUpper symbolArg) dOpt)
          ((pipelineItems opts env news).map (fun x => x.1))
      else .ok "") = .ok summ)
    (hper : persistData db (strUpper symbolArg)
        (pipelineFinalCompany opts (step1Company (strUpper symbolArg) dOpt) summ)
        stock (pipelineItems opts env news) env.now = .ok (db', count)) :
    pipelineRun symbolArg opts env db t0 t1 =
      ({ status := "completed"
         symbol := strUpper symbolArg
         steps_completed := ["fetch_company_data"] ++
           (if opts.fetch_stock then ["fetch_stock_prices"] else []) ++
           (if opts.fetch_news then ["fetch_news"] else []) ++
           (if opts.enrich_with_llm && !news.isEmpty then ["enrich_articles"] else []) ++
           (if opts.enrich_with_llm then ["generate_summary"] else []) ++
           ["persist_data"]
         current_step := some "persist_data"
         error := none
         started_at := t0
         completed_at := some t1
         articles_ingested := news.length
         articles_enriched := pipelineEnrichedCount opts env news
         stock_records_added := count }, db') := by
  cases hfs : opts.fetch_stock with
  | true =>
      rw [hfs] at hstock
      simp only [if_true] at hstock
      cases hfn : opts.fetch_news with
      | true =>
          rw [hfn] at hnews
          simp only [if_true] at hnews
          cases hel : opts.enrich_with_llm with
          | true =>
              rw [hel] at hsum
              simp only [if_true] at hsum
              cases hne : news.isEmpty with
              | true =>
                  rw [List.isEmpty_iff] at hne
                  subst hne
                  simp_all [pipelineRun, runSteps, pipelineItems, pipelineEnrichedCount,
                    pipelineCompanyName, pipelineFinalCompany]
              | false =>
                  simp_all [pipelineRun, runSteps, pipelineItems, pipelineEnrichedCount,
                    pipelineCompanyName, pipelineFinalCompany]
          | false =>
              rw [hel] at hsum
              simp only [Bool.false_eq_true, if_false] at hsum
              try subst hsum
              simp_all [pipelineRun, runSteps, pipelineItems, pipelineEnrichedCount,
                pipelineCompanyName, pipelineFinalCompany]
      | false =>
          rw [hfn] at hnews
          simp only [Bool.false_eq_true, if_false] at hnews
          try subst hnews
          cases hel : opts.enrich_with_llm with
          | true =>
              rw [hel] at hsum
              simp only [if_true] at hsum
              simp_all [pipelineRun, runSteps, pipelineItems, pipelineEnrichedCount,
                pipelineCompanyName, pipelineFinalCompany]
          | false =>
              rw [hel] at hsum
              simp only [Bool.false_eq_true, if_false] at hsum
              try subst hsum
              simp_all [pipelineRun, runSteps, pipelineItems, pipelineEnrichedCount,
                pipelineCompanyName, pipelineFinalCompany]
  | false =>
      rw [hfs] at hstock
      simp only [Bool.false_eq_true, if_false] at hstock
      try subst hstock
      cases hfn : opts.fetch_news with
      | true =>
          rw [hfn] at hnews
          simp only [if_true] at hnews
          cases hel : opts.enrich_with_llm with
          | true =>
              rw [hel] at hsum
              simp only [if_true] at hsum
              cases hne : news.isEmpty with
              | true =>
                  rw [List.isEmpty_iff] at hne
                  subst hne
                  simp_all [pipelineRun, runSteps, pipelineItems, pipelineEnrichedCount,
                    pipelineCompanyName, pipelineFinalCompany]
              | false =>
                  simp_all [pipelineRun, runSteps, pipelineItems, pipelineEnrichedCount,
                    pipelineCompanyName, pipelineFinalCompany]
          | false =>
              rw [hel] at hsum
              simp only [Bool.false_eq_true, if_false] at hsum
              try subst hsum
              simp_all [pipelineRun, runSteps, pipelineItems, pipelineEnrichedCount,
                pipelineCompanyName, pipelineFinalCompany]
      | false =>
          rw [hfn] at hnews
          simp only [Bool.false_eq_true, if_false] at hnews
          try subst hnews
          cases hel : opts.enrich_with_llm with
          | true =>
              rw [hel] at hsum
              simp only [if_true] at hsum
              simp_all [pipelineRun, runSteps, pipelineItems, pipelineEnrichedCount,
                pipelineCompanyName, pipelineFinalCompany]
          | false =>
              rw [hel] at hsum
              simp only [Bool.false_eq_true, if_false] at hsum
              try subst hsum
              simp_all [pipelineRun, runSteps, pipelineItems, pipelineEnrichedCount,
                pipelineCompanyName, pipelineFinalCompany]


/-- C2: an exception out of step 1, 2, 3, 5 or 6 makes the run end `failed`
with that exception's message verbatim and the completion timestamp set,
executing no later step (the completed-steps list stops at the raising
step and the store keeps its pre-run state); a traversal in which every
enabled step returns normally ends `completed` (step 4's per-item
enrichment failures never surface here). -/
theorem pipeline_status_transitions (symbolArg : String) (opts : Options) (env : Env)
    (db : Db) (t0 t1 : Time) :
    (∀ e, env.fetchCompany = .error e →
      pipelineRun symbolArg opts env db t0 t1 =
        ({ status := "failed"
           symbol := strUpper symbolArg
           steps_completed := []
           current_step := some "fetch_company_data"
           error := some e
           started_at := t0
           completed_at := some t1
           articles_ingested := 0
           articles_enriched := 0
           stock_records_added := 0 }, db)) ∧
    (∀ dOpt e, env.fetchCompany = .ok dOpt → opts.fetch_stock = true →
      env.fetchStock opts.stock_days = .error e →
      pipelineRun symbolArg opts env db t0 t1 =
        ({ status := "failed"
           symbol := strUpper symbolArg
           steps_completed := ["fetch_company_data"]
           current_step := some "fetch_stock_prices"
           error := some e
           started_at := t0
           completed_at := some t1
           articles_ingested := 0
           articles_enriched := 0
           stock_records_added := 0 }, db)) ∧
    (∀ dOpt stock e, env.fetchCompany = .ok dOpt →
      (if opts.fetch_stock then env.fetchStock opts.stock_days else .ok []) = .ok stock →
      opts.fetch_news = true →
      env.fetchNews (pipelineCompanyName (strUpper symbolArg) dOpt)
        opts.news_days opts.max_articles = .error e →
      pipelineRun symbolArg opts env db t0 t1 =
        ({ status := "failed"
           symbol := strUpper symbolArg
           steps_completed := ["fetch_company_data"] ++
             (if opts.fetch_stock then ["fetch_stock_prices"] else [])
           current_step := some "fetch_news"
           error := some e
           started_at := t0
           completed_at := some t1
           articles_ingested := 0
           articles_enriched := 0
           stock_records_added := 0 }, db)) ∧
    (∀ dOpt stock news e, env.fetchCompany = .ok dOpt →
      (if opts.fetch_stock then env.fetchStock opts.stock_days else .ok []) = .ok stock →
      (if opts.fetch_news then
        env.fetchNews (pipelineCompanyName (strUpper symbolArg) dOpt)
          opts.news_days opts.max_articles
       else .ok []) = .ok news →
      opts.enrich_with_llm = true →
      env.generateSummary (step1Company (strUpper symbolArg) dOpt)
        ((pipelineItems opts env news).map (fun x => x.1)) = .error e →
      pipelineRun symbolArg opts env db t0 t1 =
        ({ status := "failed"
           symbol := strUpper symbolArg
           steps_completed := ["fetch_company_data"] ++
             (if opts.fetch_stock then ["fetch_stock_prices"] else []) ++
             (if opts.fetch_news then ["fetch_news"] else []) ++
             (if news.isEmpty then [] else ["enrich_articles"])
           current_step := some "generate_summary"
           error := some e
           started_at := t0
           completed_at := some t1
           articles_ingested := news.length
           articles_enriched := pipelineEnrichedCount opts env news
           stock_records_added := 0 }, db)) ∧
    (∀ dOpt stock news summ e, env.fetchCompany = .ok dOpt →
      (if opts.fetch_stock then env.fetchStock opts.stock_days else .ok []) = .ok stock →
      (if opts.fetch_news then
        env.fetchNews (pipelineCompanyName (strUpper symbolArg) dOpt)
          opts.news_days opts.max_articles
       else .ok []) = .ok news →
      (if opts.enrich_with_llm then
        env.generateSummary (step1Company (strUpper symbolArg) dOpt)
          ((pipelineItems opts env news).map (fun x => x.1))
       else .ok "") = .ok summ →
      persistData db (strUpper symbolArg)
        (pipelineFinalCompany opts (step1Company (strUpper symbolArg) dOpt) summ)
        stock (pipelineItems opts env news) env.now = .error e →
      pipelineRun symbolArg opts env db t0 t1 =
        ({ status := "failed"
           symbol := strUpper symbolArg
           steps_completed := ["fetch_company_data"] ++
             (if opts.fetch_stock then ["fetch_stock_prices"] else []) ++
             (if opts.fetch_news then ["fetch_news"] else []) ++
             (if opts.enrich_with_llm && !news.isEmpty then ["enrich_articles"] else []) ++
             (if opts.enrich_with_llm then ["generate_summary"] else [])
           current_step := some "persist_data"
           error := some e
           started_at := t0
           completed_at := some t1
           articles_ingested := news.length
           articles_enriched := pipelineEnrichedCount opts env news
           stock_records_added := 0 }, db)) ∧
    (∀ dOpt stock news summ db' count, env.fetchCompany = .ok dOpt →
      (if opts.fetch_stock then env.fetchStock opts.stock_days else .ok []) = .ok stock →
      (if opts.fetch_news then
        env.fetchNews (pipelineCompanyName (strUpper symbolArg) dOpt)
          opts.news_days opts.max_articles
       else .ok []) = .ok news →
      (if opts.enrich_with_llm then
        env.generateSummary (step1Company (strUpper symbolArg) dOpt)
          ((pipelineItems opts env news).map (fun x => x.1))
       else .ok "") = .ok summ →
      persistData db (strUpper symbolArg)
        (pipelineFinalCompany opts (step1Company (strUpper symbolArg) dOpt) summ)
        stock (pipelineItems opts env news) env.now = .ok (db', count) →
      pipelineRun symbolArg opts env db t0 t1 =
        ({ status := "completed"
           symbol := strUpper symbolArg
           steps_completed := ["fetch_company_data"] ++
             (if opts.fetch_stock then ["fetch_stock_prices"] else []) ++
             (if opts.fetch_news then ["fetch_news"] else []) ++
             (if opts.enrich_with_llm && !news.isEmpty then ["enrich_articles"] else []) ++
             (if opts.enrich_with_llm then ["generate_summary"] else []) ++
             ["persist_data"]
           current_step := some "persist_data"
           error := none
           started_at := t0
           completed_at := some t1
           articles_ingested := news.length
           articles_enriched := pipelineEnrichedCount opts env news
           stock_records_added := count }, db')) := by
  refine ⟨?_, ?_, ?_, ?_, ?_, ?_⟩
  · intro e h1
    simp [pipelineRun, runSteps, h1]
  · intro dOpt e h1 hfs h2
    simp [pipelineRun, runSteps, h1, hfs, h2]
  · intro dOpt stock e h1 hstock hfn hnews
    cases hfs : opts.fetch_stock with
    | true =>
        rw [hfs] at hstock
        simp only [if_true] at hstock
        simp_all [pipelineRun, runSteps, pipelineItems, pipelineEnrichedCount,
          pipelineCompanyName, pipelineFinalCompany]
    | false =>
        rw [hfs] at hstock
        simp only [Bool.false_eq_true, if_false] at hstock
        try subst hstock
        simp_all [pipelineRun, runSteps, pipelineItems, pipelineEnrichedCount,
          pipelineCompanyName, pipelineFinalCompany]
  · intro dOpt stock news e h1 hstock hnews hel hsum
    cases hfs : opts.fetch_stock with
    | true =>
        rw [hfs] at hstock
        simp only [if_true] at hstock
        cases hfn : opts.fetch_news with
        | true =>
            rw [hfn] at hnews
            simp only [if_true] at hnews
            cases hne : news.isEmpty with
            | true =>
                rw [List.isEmpty_iff] at hne
                subst hne
                simp_all [pipelineRun, runSteps, pipelineItems, pipelineEnrichedCount,
                  pipelineCompanyName, pipelineFinalCompany]
            | false =>
                simp_all [pipelineRun, runSteps, pipelineItems, pipelineEnrichedCount,
                  pipelineCompanyName, pipelineFinalCompany]
        | false =>
            rw [hfn] at hnews
            simp only [Bool.false_eq_true, if_false] at hnews
            try subst hnews
            simp_all [pipelineRun, runSteps, pipelineItems, pipelineEnrichedCount,
              pipelineCompanyName, pipelineFinalCompany]
    | false =>
        rw [hfs] at hstock
        simp only [Bool.false_eq_true, if_false] at hstock
        try subst hstock
        cases hfn : opts.fetch_news with
        | true =>
            rw [hfn] at hnews
            simp only [if_true] at hnews
            cases hne : news.isEmpty with
            | true =>
                rw [List.isEmpty_iff] at hne
                subst hne
                simp_all [pipelineRun, runSteps, pipelineItems, pipelineEnrichedCount,
                  pipelineCompanyName, pipelineFinalCompany]
            | false =>
                simp_all [pipelineRun, runSteps, pipelineItems, pipelineEnrichedCount,
                  pipelineCompanyName, pipelineFinalCompany]
        | false =>
            rw [hfn] at hnews
            simp only [Bool.false_eq_true, if_false] at hnews
            try subst hnews
            simp_all [pipelineRun, runSteps, pipelineItems, pipelineEnrichedCount,
              pipelineCompanyName, pipelineFinalCompany]
  · intro dOpt stock news summ e h1 hstock hnews hsum hper
    cases hfs : opts.fetch_stock with
    | true =>
        rw [hfs] at hstock
        simp only [if_true] at hstock
        cases hfn : opts.fetch_news with
        | true =>
            rw [hfn] at hnews
            simp only [if_true] at hnews
            cases hel : opts.enrich_with_llm with
            | true =>
                rw [hel] at hsum
                simp only [if_true] at hsum
                cases hne : news.isEmpty with
                | true =>
                    rw [List.isEmpty_iff] at hne
                    subst hne
                    simp_all [pipelineRun, runSteps, pipelineItems, pipelineEnrichedCount,
                      pipelineCompanyName, pipelineFinalCompany]
                | false =>
                    simp_all [pipelineRun, runSteps, pipelineItems, pipelineEnrichedCount,
                      pipelineCompanyName, pipelineFinalCompany]
            | false =>
                rw [hel] at hsum
                simp only [Bool.false_eq_true, if_false] at hsum
                try subst hsum
                simp_all [pipelineRun, runSteps, pipelineItems, pipelineEnrichedCount,
                  pipelineCompanyName, pipelineFinalCompany]
        | false =>
            rw [hfn] at hnews
            simp only [Bool.false_eq_true, if_false] at hnews
            try subst hnews
            cases hel : opts.enrich_with_llm with
            | true =>
                rw [hel] at hsum
                simp only [if_true] at hsum
                simp_all [pipelineRun, runSteps, pipelineItems, pipelineEnrichedCount,
                  pipelineCompanyName, pipelineFinalCompany]
            | false =>
                rw [hel] at hsum
                simp only [Bool.false_eq_true, if_false] at hsum
                try subst hsum
                simp_all [pipelineRun, runSteps, pipelineItems, pipelineEnrichedCount,
                  pipelineCompanyName, pipelineFinalCompany]
    | false =>
        rw [hfs] at hstock
        simp only [Bool.false_eq_true, if_false] at hstock
        try subst hstock
        cases hfn : opts.fetch_news with
        | true =>
            rw [hfn] at hnews
            simp only [if_true] at hnews
            cases hel : opts.enrich_with_llm with
            | true =>
                rw [hel] at hsum
                simp only [if_true] at hsum
                cases hne : news.isEmpty with
                | true =>
                    rw [List.isEmpty_iff] at hne
                    subst hne
                    simp_all [pipelineRun, runSteps, pipelineItems, pipelineEnrichedCount,
                      pipelineCompanyName, pipelineFinalCompany]
                | false =>
                    simp_all [pipelineRun, runSteps, pipelineItems, pipelineEnrichedCount,
                      pipelineCompanyName, pipelineFinalCompany]
            | false =>
                rw [hel] at hsum
                simp only [Bool.false_eq_true, if_false] at hsum
                try subst hsum
                simp_all [pipelineRun, runSteps, pipelineItems, pipelineEnrichedCount,
                  pipelineCompanyName, pipelineFinalCompany]
        | false =>
            rw [hfn] at hnews
            simp only [Bool.false_eq_true, if_false] at hnews
            try subst hnews
            cases hel : opts.enrich_with_llm with
            | true =>
                rw [hel] at hsum
                simp only [if_true] at hsum
                simp_all [pipelineRun, runSteps, pipelineItems, pipelineEnrichedCount,
                  pipelineCompanyName, pipelineFinalCompany]
            | false =>
                rw [hel] at hsum
                simp only [Bool.false_eq_true, if_false] at hsum
                try subst hsum
                simp_all [pipelineRun, runSteps, pipelineItems, pipelineEnrichedCount,
                  pipelineCompanyName, pipelineFinalCompany]
  · intro dOpt stock news summ db' count h1 hstock hnews hsum hper
    exact pipelineRun_success_eq symbolArg opts env db t0 t1 dOpt stock news summ
      db' count h1 hstock hnews hsum hper

/-- Witness for C2: a concrete run whose stock fetch raises ends `failed`
with that message, the completion timestamp set, only step 1 recorded, and
the store untouched. -/
theorem pipeline_status_transitions_witness :
    let env : Env :=
      { fetchCompany := .ok none
        fetchStock := fun _ => .error "rate limited"
        fetchNews := fun _ _ _ => .ok []
        enrichArticle := fun _ _ => .error "unused"
        generateSummary := fun _ _ => .ok "s"
        now := 0 }
    pipelineRun "acme" {} env emptyDb 0 1 =
      ({ status := "failed"
         symbol := "ACME"
         steps_completed := ["fetch_company_data"]
         current_step := some "fetch_stock_prices"
         error := some "rate limited"
         started_at := 0
         completed_at := some 1
         articles_ingested := 0
         articles_enriched := 0
         stock_records_added := 0 }, emptyDb) := by
  intro env
  exact (pipeline_status_transitions "acme" {} env emptyDb 0 1).2.1 none
    "rate limited" rfl rfl rfl

/-! ## C1: per-item enrichment failure isolation -/

theorem enrichStep_fst (env : Env) : ∀ (i0 : ℕ) (l : List Article),
    (enrichStep env i0 l).1.map (fun p => p.1) = l := by
  intro i0 l
  induction l generalizing i0 with
  | nil => rfl
  | cons a rest ih =>
      simp only [enrichStep]
      cases env.enrichArticle i0 a <;> simp [ih]

theorem enrichStep_length (env : Env) (i0 : ℕ) (l : List Article) :
    (enrichStep env i0 l).1.length = l.length := by
  have h := congrArg List.length (enrichStep_fst env i0 l)
  simpa using h

theorem enrichStep_count (env : Env) (k : ℕ) (em : String) (es : ℕ → Enrichment) :
    ∀ (l : List Article) (i0 : ℕ),
      (∀ j (hj : j < l.length), env.enrichArticle (i0 + j) (l.get ⟨j, hj⟩) =
        if i0 + j = k then .error em else .ok (es (i0 + j))) →
      (enrichStep env i0 l).2 =
        (if i0 ≤ k ∧ k < i0 + l.length then l.length - 1 else l.length) := by
  intro l
  induction l with
  | nil =>
      intro i0 _
      have hz : (enrichStep env i0 ([] : List Article)).2 = 0 := rfl
      rw [hz, List.length_nil, if_neg (by omega)]
  | cons a rest ih =>
      intro i0 henr
      have h0 := henr 0 (by simp)
      simp only [Nat.add_zero, List.get] at h0
      have hrest : ∀ j (hj : j < rest.length),
          env.enrichArticle (i0 + 1 + j) (rest.get ⟨j, hj⟩) =
            if i0 + 1 + j = k then .error em else .ok (es (i0 + 1 + j)) := by
        intro j hj
        have h := henr (j + 1) (by simpa using Nat.succ_lt_succ hj)
        have harr : i0 + (j + 1) = i0 + 1 + j := by omega
        simpa [List.get, harr] using h
      have hr := ih (i0 + 1) hrest
      by_cases hik : i0 = k
      · rw [if_pos hik] at h0
        simp only [enrichStep, h0, hr]
        rw [if_neg (by omega)]
        simp only [List.length_cons]
        rw [if_pos (by omega)]
        omega
      · rw [if_neg hik] at h0
        simp only [enrichStep, h0, hr]
        simp only [List.length_cons]
        by_cases hin : i0 ≤ k ∧ k < i0 + (rest.length + 1)
        · rw [if_pos (by omega), if_pos hin]
          have hk : k ≠ i0 := fun h => hik h.symm
          have hlen : 0 < rest.length := by omega
          omega
        · rw [if_neg (by omega), if_neg hin]

theorem enrichStep_snd_at (env : Env) (k : ℕ) (em : String) (es : ℕ → Enrichment) :
    ∀ (l : List Article) (i0 : ℕ),
      (∀ j (hj : j < l.length), env.enrichArticle (i0 + j) (l.get ⟨j, hj⟩) =
        if i0 + j = k then .error em else .ok (es (i0 + j))) →
      ∀ j (hj : j < (enrichStep env i0 l).1.length) (hj2 : j < l.length),
        ((enrichStep env i0 l).1.get ⟨j, hj⟩).2 =
          if i0 + j = k then none else some (es (i0 + j)) := by
  intro l
  induction l with
  | nil =>
      intro i0 _ j _ hj2
      exact absurd hj2 (by simp)
  | cons a rest ih =>
      intro i0 henr j hj hj2
      have h0 := henr 0 (by simp)
      simp only [Nat.add_zero, List.get] at h0
      have hrest : ∀ j (hj : j < rest.length),
          env.enrichArticle (i0 + 1 + j) (rest.get ⟨j, hj⟩) =
            if i0 + 1 + j = k then .error em else .ok (es (i0 + 1 + j)) := by
        intro j hj
        have h := henr (j + 1) (by simpa using Nat.succ_lt_succ hj)
        have harr : i0 + (j + 1) = i0 + 1 + j := by omega
        simpa [List.get, harr] using h
      cases j with
      | zero =>
          simp only [Nat.add_zero] at hj2 ⊢
          by_cases hik : i0 = k
          · rw [if_pos hik] at h0 ⊢
            simp [enrichStep, h0]
          · rw [if_neg hik] at h0 ⊢
            simp [enrichStep, h0]
      | succ m =>
          have hm2 : m < rest.length := by simpa using Nat.lt_of_succ_lt_succ hj2
          have hm : m < (enrichStep env (i0 + 1) rest).1.length := by
            rw [enrichStep_length]
            exact hm2
          have hih := ih (i0 + 1) hrest m hm hm2
          have harr : i0 + 1 + m = i0 + (m + 1) := by omega
          rw [harr] at hih
          cases henrres : env.enrichArticle i0 a with
          | ok e =>
              simpa [enrichStep, henrres] using hih
          | error msg =>
              simpa [enrichStep, henrres] using hih

theorem addNewsArticle_fresh {db : Db} {symbol : String} {a : Article}
    (hfr : ∀ u, a.url = some u → u ≠ "" → ∀ r ∈ db.articles, r.url ≠ some u) :
    addNewsArticle db symbol a =
      (articleRowOf db.nextArticleId symbol a,
       { db with articles := db.articles ++ [articleRowOf db.nextArticleId symbol a],
                 nextArticleId := db.nextArticleId + 1 }) := by
  unfold addNewsArticle
  cases hau : a.url with
  | none => simp [hau]
  | some u =>
      by_cases hu : u = ""
      · simp [hau, hu]
      · have hfind : db.articles.find? (fun r => decide (r.url = some u)) = none := by
          rw [List.find?_eq_none]
          intro r hr
          simp only [decide_eq_true_eq]
          exact hfr u hau hu r hr
        simp [hau, hu, hfind]

theorem updateFirst_append_of_not {α : Type} (p : α → Bool) (f : α → α) (x : α) :
    ∀ l : List α, (∀ y ∈ l, ¬ p y = true) →
      updateFirst p f (l ++ [x]) = l ++ [if p x then f x else x] := by
  intro l
  induction l with
  | nil =>
      intro _
      simp only [List.nil_append, updateFirst]
      split <;> simp
  | cons z zs ih =>
      intro h
      simp only [List.cons_append, updateFirst]
      have hz : p z = false :=
        Bool.eq_false_iff.2 (h z (List.mem_cons_self _ _))
      simp only [hz, Bool.false_eq_true, if_false, List.cons.injEq, true_and]
      exact ih (fun y hy => h y (List.mem_cons_of_mem _ hy))

theorem addStockData_frame (db : Db) (symbol : String) (rs : List StockIn) :
    (addStockData db symbol rs).1.articles = db.articles ∧
      (addStockData db symbol rs).1.nextArticleId = db.nextArticleId ∧
      (addStockData db symbol rs).1.companies = db.companies := by
  simp [addStockData]

/-- Persisting a batch of fresh-url items appends one row per item, in
order; an item kept with a null enrichment yields exactly the plain
inserted row, enrichment columns null. -/
theorem persistArticles_spec (symbol : String) (now : Time) :
    ∀ (items : List (Article × Option Enrichment)) (db : Db),
      (∀ p ∈ items, ∀ u, p.1.url = some u → u ≠ "" → ∀ r ∈ db.articles, r.url ≠ some u) →
      items.Pairwise (fun p q => ∀ u, p.1.url = some u → u ≠ "" → q.1.url ≠ some u) →
      (∀ r ∈ db.articles, r.id < db.nextArticleId) →
      ∃ rows, (persistArticles symbol now db items).articles = db.articles ++ rows ∧
        rows.length = items.length ∧
        ∀ j (hj : j < rows.length) (hj2 : j < items.length),
          (items.get ⟨j, hj2⟩).2 = none →
            rows.get ⟨j, hj⟩ =
              articleRowOf (db.nextArticleId + j) symbol (items.get ⟨j, hj2⟩).1 := by
  intro items
  induction items with
  | nil =>
      intro db _ _ _
      exact ⟨[], by simp [persistArticles], rfl, fun j hj _ _ => absurd hj (by simp)⟩
  | cons p rest ih =>
      intro db hfresh hpair hid
      obtain ⟨a, enr⟩ := p
      have hfr : ∀ u, a.url = some u → u ≠ "" → ∀ r ∈ db.articles, r.url ≠ some u :=
        fun u hu hne => hfresh (a, enr) (List.mem_cons_self _ _) u hu hne
      have hadd : addNewsArticle db symbol a =
          (articleRowOf db.nextArticleId symbol a,
           { db with
             articles := db.articles ++ [articleRowOf db.nextArticleId symbol a],
             nextArticleId := db.nextArticleId + 1 }) :=
        addNewsArticle_fresh hfr
      -- shared step facts for the store handed to the recursive call
      have hstep : ∀ (newrow : ArticleRow), newrow.url = a.url →
          ∀ db2 : Db, db2.articles = db.articles ++ [newrow] →
          db2.nextArticleId = db.nextArticleId + 1 →
          newrow.id = db.nextArticleId →
          (∀ q ∈ rest, ∀ u, q.1.url = some u → u ≠ "" →
            ∀ r ∈ db2.articles, r.url ≠ some u) ∧
          (∀ r ∈ db2.articles, r.id < db2.nextArticleId) := by
        intro newrow hurl db2 ha hn hidrow
        constructor
        · intro q hq u hu hune r hr
          rw [ha] at hr
          rcases List.mem_append.1 hr with hold | hnew
          · exact hfresh q (List.mem_cons_of_mem _ hq) u hu hune r hold
          · rcases List.mem_singleton.1 hnew with rfl
            rw [hurl]
            intro hcon
            exact (List.pairwise_cons.1 hpair).1 q hq u hcon hune hu
        · intro r hr
          rw [ha] at hr
          rw [hn]
          rcases List.mem_append.1 hr with hold | hnew
          · have := hid r hold
            omega
          · rcases List.mem_singleton.1 hnew with rfl
            omega
      have hpairrest := (List.pairwise_cons.1 hpair).2
      cases enr with
      | none =>
          have hper : persistArticles symbol now db ((a, none) :: rest) =
              persistArticles symbol now
                { db with articles := db.articles ++ [articleRowOf db.nextArticleId symbol a],
                          nextArticleId := db.nextArticleId + 1 } rest := by
            simp only [persistArticles, hadd]
          obtain ⟨hfr2, hid2⟩ := hstep (articleRowOf db.nextArticleId symbol a) rfl
            { db with articles := db.articles ++ [articleRowOf db.nextArticleId symbol a],
                      nextArticleId := db.nextArticleId + 1 } rfl rfl rfl
          obtain ⟨rows, hrows, hlen, hat⟩ := ih _ hfr2 hpairrest hid2
          refine ⟨articleRowOf db.nextArticleId symbol a :: rows, ?_, by simpa using hlen, ?_⟩
          · rw [hper, hrows]
            simp
          · intro j hj hj2 hnone
            cases j with
            | zero => simp [List.get]
            | succ m =>
                have hm : m < rows.length := by simpa using Nat.lt_of_succ_lt_succ hj
                have hm2 : m < rest.length := by simpa using Nat.lt_of_succ_lt_succ hj2
                have := hat m hm hm2 (by simpa [List.get] using hnone)
                simp only [List.get]
                rw [this]
                congr 1
                show db.nextArticleId + 1 + m = db.nextArticleId + (m + 1)
                omega
      | some e =>
          have hupd : updateArticleEnrichment
              { db with articles := db.articles ++ [articleRowOf db.nextArticleId symbol a],
                        nextArticleId := db.nextArticleId + 1 }
              (articleRowOf db.nextArticleId symbol a).id e now =
              { db with articles := db.articles ++
                  [enrichRow e now (articleRowOf db.nextArticleId symbol a)],
                        nextArticleId := db.nextArticleId + 1 } := by
            simp only [updateArticleEnrichment]
            have hnot : ∀ y ∈ db.articles,
                ¬ (y.id == (articleRowOf db.nextArticleId symbol a).id) = true := by
              intro y hy
              have := hid y hy
              simp only [articleRowOf, beq_iff_eq]
              omega
            rw [updateFirst_append_of_not _ _ _ _ hnot]
            rw [if_pos (by simp)]
          have hper : persistArticles symbol now db ((a, some e) :: rest) =
              persistArticles symbol now
                { db with articles := db.articles ++
                    [enrichRow e now (articleRowOf db.nextArticleId symbol a)],
                          nextArticleId := db.nextArticleId + 1 } rest := by
            simp only [persistArticles, hadd, hupd]
          obtain ⟨hfr2, hid2⟩ := hstep (enrichRow e now (articleRowOf db.nextArticleId symbol a))
            (by simp [enrichRow, articleRowOf])
            { db with articles := db.articles ++
                [enrichRow e now (articleRowOf db.nextArticleId symbol a)],
                      nextArticleId := db.nextArticleId + 1 } rfl rfl
            (by simp [enrichRow, articleRowOf])
          obtain ⟨rows, hrows, hlen, hat⟩ := ih _ hfr2 hpairrest hid2
          refine ⟨enrichRow e now (articleRowOf db.nextArticleId symbol a) :: rows, ?_,
            by simpa using hlen, ?_⟩
          · rw [hper, hrows]
            simp
          · intro j hj hj2 hnone
            cases j with
            | zero => exact absurd hnone (by simp [List.get])
            | succ m =>
                have hm : m < rows.length := by simpa using Nat.lt_of_succ_lt_succ hj
                have hm2 : m < rest.length := by simpa using Nat.lt_of_succ_lt_succ hj2
                have := hat m hm hm2 (by simpa [List.get] using hnone)
                simp only [List.get]
                rw [this]
                congr 1
                show db.nextArticleId + 1 + m = db.nextArticleId + (m + 1)
                omega

/-- C1 (amended): in a run where exactly one item's enrichment call raises
and every other step returns normally, provided the fetched items carry
pairwise-distinct truthy urls none of which is already stored (otherwise
url deduplication folds the failed item into an earlier row), the run ends
`completed`, `articles_enriched = N - 1`, and the failed item is persisted
as its own row with every enrichment column null. -/
theorem enrichment_failure_isolated (symbolArg : String) (opts : Options) (env : Env)
    (db : Db) (t0 t1 : Time) (dOpt : Option CompanyIn) (stock : List StockIn)
    (news : List Article) (summ : String) (k : ℕ) (em : String) (es : ℕ → Enrichment)
    (h1 : env.fetchCompany = .ok dOpt)
    (hstock : (if opts.fetch_stock then env.fetchStock opts.stock_days else .ok []) = .ok stock)
    (hfn : opts.fetch_news = true)
    (hel : opts.enrich_with_llm = true)
    (hnews : env.fetchNews (pipelineCompanyName (strUpper symbolArg) dOpt)
      opts.news_days opts.max_articles = .ok news)
    (hk : k < news.length)
    (henr : ∀ i (h : i < news.length),
      env.enrichArticle i (news.get ⟨i, h⟩) = if i = k then .error em else .ok (es i))
    (hsum : env.generateSummary (step1Company (strUpper symbolArg) dOpt)
      ((pipelineItems opts env news).map (fun x => x.1)) = .ok summ)
    (hupsert : ∃ p, upsertCompany db
      (pipelineFinalCompany opts (step1Company (strUpper symbolArg) dOpt) summ) env.now = .ok p)
    (hid : ∀ r ∈ db.articles, r.id < db.nextArticleId)
    (hfresh : ∀ a ∈ news, ∀ u, a.url = some u → u ≠ "" → ∀ r ∈ db.articles, r.url ≠ some u)
    (hpair : news.Pairwise (fun a b => ∀ u, a.url = some u → u ≠ "" → b.url ≠ some u)) :
    (pipelineRun symbolArg opts env db t0 t1).1.status = "completed" ∧
    (pipelineRun symbolArg opts env db t0 t1).1.articles_enriched = news.length - 1 ∧
    ∃ rows, (pipelineRun symbolArg opts env db t0 t1).2.articles = db.articles ++ rows ∧
      rows.length = news.length ∧
      ∀ (hr : k < rows.length),
        (rows.get ⟨k, hr⟩).title = (news.get ⟨k, hk⟩).title ∧
        (rows.get ⟨k, hr⟩).url = (news.get ⟨k, hk⟩).url ∧
        (rows.get ⟨k, hr⟩).sentiment_score = none ∧
        (rows.get ⟨k, hr⟩).sentiment_label = none ∧
        (rows.get ⟨k, hr⟩).classification = none ∧
        (rows.get ⟨k, hr⟩).key_insights = none ∧
        (rows.get ⟨k, hr⟩).market_impact = none ∧
        (rows.get ⟨k, hr⟩).enriched_at = none := by
  obtain ⟨⟨c, db1⟩, hups⟩ := hupsert
  have hne : news ≠ [] := by
    intro h
    rw [h] at hk
    exact absurd hk (by simp)
  have hnemp : news.isEmpty = false := by
    cases hni : news.isEmpty
    · rfl
    · rw [List.isEmpty_iff] at hni
      exact absurd hni hne
  have hitems : pipelineItems opts env news = (enrichStep env 0 news).1 := by
    simp [pipelineItems, hel, hnemp]
  have henr0 : ∀ j (hj : j < news.length),
      env.enrichArticle (0 + j) (news.get ⟨j, hj⟩) =
        if 0 + j = k then .error em else .ok (es (0 + j)) := by
    intro j hj
    simpa [Nat.zero_add] using henr j hj
  have hcount := enrichStep_count env k em es news 0 henr0
  rw [if_pos ⟨Nat.zero_le _, by simpa using hk⟩] at hcount
  -- the persist step succeeds, with a known resulting store
  have hpd : persistData db (strUpper symbolArg)
      (pipelineFinalCompany opts (step1Company (strUpper symbolArg) dOpt) summ)
      stock (pipelineItems opts env news) env.now =
      .ok (persistArticles (strUpper symbolArg) env.now
            (if stock.isEmpty then ((db1 : Db), (0 : ℕ))
             else addStockData db1 (strUpper symbolArg) stock).1
            (pipelineItems opts env news),
           (if stock.isEmpty then ((db1 : Db), (0 : ℕ))
            else addStockData db1 (strUpper symbolArg) stock).2) := by
    simp only [persistData, hups]
  have hrun := pipelineRun_success_eq symbolArg opts env db t0 t1 dOpt stock news summ
    _ _ h1 hstock (by simpa [hfn] using hnews) (by simpa [hel] using hsum) hpd
  have hframe := upsert_ok_frame hups
  have hdb2 : (if stock.isEmpty then ((db1 : Db), (0 : ℕ))
      else addStockData db1 (strUpper symbolArg) stock).1.articles = db.articles ∧
      (if stock.isEmpty then ((db1 : Db), (0 : ℕ))
       else addStockData db1 (strUpper symbolArg) stock).1.nextArticleId =
        db.nextArticleId := by
    by_cases hse : stock.isEmpty
    · simp only [hse, if_true]
      exact ⟨hframe.2.1, hframe.2.2⟩
    · simp only [hse, Bool.false_eq_true, if_false]
      rw [(addStockData_frame db1 (strUpper symbolArg) stock).1,
        (addStockData_frame db1 (strUpper symbolArg) stock).2.1]
      exact ⟨hframe.2.1, hframe.2.2⟩
  refine ⟨?_, ?_, ?_⟩
  · rw [hrun]
  · rw [hrun]
    simp only [pipelineEnrichedCount, hel, hnemp]
    simpa using hcount
  · rw [hrun]
    -- apply the persist-loop description to the enriched item list
    have hmapfst : (pipelineItems opts env news).map (fun p => p.1) = news := by
      rw [hitems]
      exact enrichStep_fst env 0 news
    have hfresh2 : ∀ p ∈ pipelineItems opts env news, ∀ u, p.1.url = some u → u ≠ "" →
        ∀ r ∈ (if stock.isEmpty then ((db1 : Db), (0 : ℕ))
          else addStockData db1 (strUpper symbolArg) stock).1.articles, r.url ≠ some u := by
      intro p hp u hu hune r hr
      rw [hdb2.1] at hr
      have hp1 : p.1 ∈ news := by
        rw [← hmapfst]
        exact List.mem_map_of_mem _ hp
      exact hfresh p.1 hp1 u hu hune r hr
    have hpair2 : (pipelineItems opts env news).Pairwise
        (fun p q => ∀ u, p.1.url = some u → u ≠ "" → q.1.url ≠ some u) := by
      have := hpair
      rw [← hmapfst] at this
      exact (List.pairwise_map.1 this)
    have hid2 : ∀ r ∈ (if stock.isEmpty then ((db1 : Db), (0 : ℕ))
        else addStockData db1 (strUpper symbolArg) stock).1.articles,
        r.id < (if stock.isEmpty then ((db1 : Db), (0 : ℕ))
          else addStockData db1 (strUpper symbolArg) stock).1.nextArticleId := by
      intro r hr
      rw [hdb2.1] at hr
      rw [hdb2.2]
      exact hid r hr
    obtain ⟨rows, hrows, hlen, hat⟩ := persistArticles_spec (strUpper symbolArg) env.now
      (pipelineItems opts env news) _ hfresh2 hpair2 hid2
    have hitemlen : (pipelineItems opts env news).length = news.length := by
      rw [hitems]
      exact enrichStep_length env 0 news
    refine ⟨rows, by rw [hrows, hdb2.1], by rw [hlen, hitemlen], ?_⟩
    intro hr
    have hk2 : k < (pipelineItems opts env news).length := by
      rw [hitemlen]
      exact hk
    have hk3 : k < (enrichStep env 0 news).1.length := by
      rw [enrichStep_length]
      exact hk
    have hsnd' := enrichStep_snd_at env k em es news 0 henr0 k hk3 hk
    rw [if_pos (by omega)] at hsnd'
    have hsnd : ((pipelineItems opts env news).get ⟨k, hk2⟩).2 = none := by
      have hcast := List.get_of_eq hitems ⟨k, hk2⟩
      rw [hcast]
      exact hsnd'
    have hfst : ((pipelineItems opts env news).get ⟨k, hk2⟩).1 = news.get ⟨k, hk⟩ := by
      have hcast := List.get_of_eq hmapfst.symm ⟨k, hk⟩
      rw [hcast, List.get_map]
    have hrow := hat k hr hk2 hsnd
    rw [hrow, hdb2.2, hfst]
    simp [articleRowOf]

/-- C1 counterexample: two fetched items share a url; item 0 enriches fine,
item 1's enrichment raises.  The run completes with
`articles_enriched = N - 1 = 1`, but persisting item 1 deduplicates it into
item 0's row, so the store holds a single row whose enrichment columns are
all set: no persisted row for the failed item has null enrichment fields. -/
theorem c1_url_collision_counterexample :
    let a0 : Article :=
      { title := "first", source := none, author := none,
        url := some "https://example.com/dup", published_at := none, content := "x" }
    let a1 : Article :=
      { title := "second", source := none, author := none,
        url := some "https://example.com/dup", published_at := none, content := "y" }
    let e0 : Enrichment :=
      { sentiment_score := 0.5, sentiment_label := "positive",
        classification := "other", market_impact := "medium", key_insights := none }
    let env : Env :=
      { fetchCompany := .ok none
        fetchStock := fun _ => .ok []
        fetchNews := fun _ _ _ => .ok [a0, a1]
        enrichArticle := fun i _ => if i = 0 then .ok e0 else .error "boom"
        generateSummary := fun _ _ => .ok "s"
        now := 100 }
    (pipelineRun "ACME" {} env emptyDb 0 1).1.status = "completed" ∧
    (pipelineRun "ACME" {} env emptyDb 0 1).1.articles_ingested = 2 ∧
    (pipelineRun "ACME" {} env emptyDb 0 1).1.articles_enriched = 1 ∧
    (pipelineRun "ACME" {} env emptyDb 0 1).2.articles.length = 1 ∧
    ∀ r ∈ (pipelineRun "ACME" {} env emptyDb 0 1).2.articles,
      r.sentiment_score ≠ none := by decide

/-- Witness for C1: two distinct-url items, enrichment of item 0 raises;
the completed run keeps item 0 as its own row with null enrichment. -/
theorem enrichment_failure_isolated_witness :
    let a0 : Article :=
      { title := "first", source := none, author := none,
        url := some "https://example.com/one", published_at := none, content := "x" }
    let a1 : Article :=
      { title := "second", source := none, author := none,
        url := some "https://example.com/two", published_at := none, content := "y" }
    let e0 : Enrichment :=
      { sentiment_score := 0.5, sentiment_label := "positive",
        classification := "other", market_impact := "medium", key_insights := none }
    let env : Env :=
      { fetchCompany := .ok none
        fetchStock := fun _ => .ok []
        fetchNews := fun _ _ _ => .ok [a0, a1]
        enrichArticle := fun i _ => if i = 0 then .error "boom" else .ok e0
        generateSummary := fun _ _ => .ok "s"
        now := 100 }
    (pipelineRun "ACME" {} env emptyDb 0 1).1.status = "completed" ∧
    (pipelineRun "ACME" {} env emptyDb 0 1).1.articles_enriched = 1 ∧
    ∃ rows, (pipelineRun "ACME" {} env emptyDb 0 1).2.articles = emptyDb.articles ++ rows ∧
      rows.length = 2 := by
  intro a0 a1 e0 env
  have hpair : ([a0, a1] : List Article).Pairwise
      (fun a b => ∀ u, a.url = some u → u ≠ "" → b.url ≠ some u) := by
    refine List.pairwise_cons.2 ⟨?_, List.pairwise_singleton _ _⟩
    intro b hb u hu hune
    rcases List.mem_singleton.1 hb with rfl
    cases hu
    decide
  have henr : ∀ i (h : i < ([a0, a1] : List Article).length),
      env.enrichArticle i (([a0, a1] : List Article).get ⟨i, h⟩) =
        if i = 0 then .error "boom" else .ok ((fun _ => e0) i) := by
    intro i h
    rfl
  have h := enrichment_failure_isolated "ACME" {} env emptyDb 0 1 none [] [a0, a1]
    "s" 0 "boom" (fun _ => e0) rfl rfl rfl rfl rfl (by decide) henr rfl ⟨_, rfl⟩
    (by intro r hr; exact absurd hr (by simp [emptyDb]))
    (by intro a ha u hu hune r hr; exact absurd hr (by simp [emptyDb]))
    hpair
  obtain ⟨rows, hrows, hlen, _⟩ := h.2.2
  exact ⟨h.1, h.2.1, rows, hrows, hlen⟩

/-! ## C7: symbol canonicalization -/

theorem updateFirst_map_eq_of_find {α β : Type} (p : α → Bool) (f : α → α) (g : α → β) :
    ∀ l : List α, (∀ a, l.find? p = some a → g (f a) = g a) →
      (updateFirst p f l).map g = l.map g := by
  intro l
  induction l with
  | nil => intro _; rfl
  | cons x xs ih =>
      intro h
      simp only [updateFirst]
      by_cases hpx : p x = true
      · rw [if_pos hpx]
        have := h x (by rw [List.find?_cons_of_pos _ hpx])
        simp [this]
      · rw [if_neg hpx]
        simp only [List.map_cons, List.cons.injEq, true_and]
        exact ih (fun a ha => h a (by
          rw [List.find?_cons_of_neg _ (by simpa using hpx)]
          exact ha))

/-- C7 counterexample: an upsert whose payload carries a lowercase symbol
persists it verbatim — the stored symbol "aa" is not fully uppercase. -/
theorem c7_lowercase_symbol_counterexample :
    ((upsertCompany emptyDb { symbol := some "aa", name := some "N" } 0).map
      (fun p => p.2.companies.map (fun c => c.symbol))) = .ok ["aa"] ∧
    strUpper "aa" ≠ "aa" := by decide

/-- C7 (amended): the pipeline canonicalizes its run symbol to uppercase
(so ingestion-persisted payloads carry the uppercased symbol), while
`upsert_company` stores the incoming symbol verbatim — only its duplicate
lookup is case-normalized; hence at most one record per case-insensitive
symbol is maintained when every upsert payload's symbol is already
uppercase-fixed. -/
theorem symbol_canonicalization :
    (∀ (symbolArg : String) (opts : Options) (env : Env) (db : Db) (t0 t1 : Time)
        (dOpt : Option CompanyIn) (stock : List StockIn) (news : List Article)
        (summ : String) (db2 : Db) (count : ℕ),
      env.fetchCompany = .ok dOpt →
      (if opts.fetch_stock then env.fetchStock opts.stock_days else .ok []) = .ok stock →
      (if opts.fetch_news then
          env.fetchNews (pipelineCompanyName (strUpper symbolArg) dOpt)
            opts.news_days opts.max_articles
        else .ok []) = .ok news →
      (if opts.enrich_with_llm then
          env.generateSummary (step1Company (strUpper symbolArg) dOpt)
            ((pipelineItems opts env news).map (fun x => x.1))
        else .ok "") = .ok summ →
      persistData db (strUpper symbolArg)
          (pipelineFinalCompany opts (step1Company (strUpper symbolArg) dOpt) summ)
          stock (pipelineItems opts env news) env.now = .ok (db2, count) →
      (pipelineRun symbolArg opts env db t0 t1).1.symbol = strUpper symbolArg) ∧
    (∀ (s : String) (d : CompanyIn),
      (step1Company s none).symbol = some s ∧
      (step1Company s (some d)).symbol = some (d.symbol.getD s)) ∧
    (∀ (data : CompanyIn) (s n : String) (now : Time),
      data.symbol = some s → data.name = some n →
      upsertCompany emptyDb data now =
        .ok (insertCompanyRow s n data now,
          { emptyDb with companies := [insertCompanyRow s n data now] }) ∧
      (insertCompanyRow s n data now).symbol = s) ∧
    (∀ (db : Db) (data : CompanyIn) (now : Time),
      (data.symbol = none ∨ ∃ s, data.symbol = some s ∧ strUpper s = s) →
      (∀ c ∈ db.companies, strUpper c.symbol = c.symbol) →
      (db.companies.map (fun c => c.symbol)).Nodup →
      (∀ c ∈ (applyOp db (.upsert data now)).companies, strUpper c.symbol = c.symbol) ∧
      ((applyOp db (.upsert data now)).companies.map (fun c => c.symbol)).Nodup ∧
      ((applyOp db (.upsert data now)).companies.map (fun c => strUpper c.symbol)).Nodup) := by
  refine ⟨?_, ?_, ?_, ?_⟩
  · intro symbolArg opts env db t0 t1 dOpt stock news summ db2 count
    intro h1 hstock hnews hsum hper
    rw [pipelineRun_success_eq symbolArg opts env db t0 t1 dOpt stock news summ
      db2 count h1 hstock hnews hsum hper]
  · intro s d
    exact ⟨rfl, rfl⟩
  · intro data s n now hs hn
    constructor
    · simp [upsertCompany, emptyDb, hs, hn]
    · rfl
  · intro db data now hsym hfix hnd
    -- the class-uniqueness part follows from the first two once symbols stay fixed
    suffices h : (∀ c ∈ (applyOp db (.upsert data now)).companies,
        strUpper c.symbol = c.symbol) ∧
        ((applyOp db (.upsert data now)).companies.map (fun c => c.symbol)).Nodup by
      refine ⟨h.1, h.2, ?_⟩
      have hcongr : (applyOp db (.upsert data now)).companies.map
          (fun c => strUpper c.symbol) =
          (applyOp db (.upsert data now)).companies.map (fun c => c.symbol) :=
        List.map_congr_left h.1
      rw [hcongr]
      exact h.2
    simp only [applyOp]
    split
    · next c db' hok =>
        -- analyse which branch of the upsert succeeded
        simp only [upsertCompany] at hok
        split at hok
        · next existing hfind =>
            -- update branch: the merged symbol equals the existing one
            have hpmem := List.mem_of_find?_eq_some hfind
            have hpeq := List.find?_some hfind
            simp only [beq_iff_eq] at hpeq
            have hmerged : (mergeCompany existing data now).symbol = existing.symbol := by
              rcases hsym with hnone | ⟨s, hsome, hup⟩
              · simp [mergeCompany, hnone]
              · simp only [mergeCompany, hsome, Option.getD_some]
                rw [hpeq, hsome, Option.getD_some, hup]
            rw [if_neg (fun hcon => hcon.1 hmerged)] at hok
            cases hok
            constructor
            · intro c hc
              have hmap := updateFirst_map_eq_of_find
                (fun c => c.symbol == strUpper (data.symbol.getD ""))
                (fun _ => mergeCompany existing data now) (fun c => c.symbol)
                db.companies (fun a ha => by
                  rw [hfind] at ha
                  cases ha
                  exact hmerged)
              -- membership: symbols unchanged, so c's symbol appears among the old ones
              have hcsym : c.symbol ∈ db.companies.map (fun c => c.symbol) := by
                rw [← hmap]
                exact List.mem_map_of_mem _ hc
              rw [List.mem_map] at hcsym
              obtain ⟨c0, hc0, hceq⟩ := hcsym
              rw [← hceq]
              exact hfix c0 hc0
            · have hmap := updateFirst_map_eq_of_find
                (fun c => c.symbol == strUpper (data.symbol.getD ""))
                (fun _ => mergeCompany existing data now) (fun c => c.symbol)
                db.companies (fun a ha => by
                  rw [hfind] at ha
                  cases ha
                  exact hmerged)
              rw [hmap]
              exact hnd
        · -- insert branch: destructure the payload instead of the match binders
          rcases hsym with hnone | ⟨s, hsome, hups⟩
          · cases hdn : data.name
            all_goals rw [hnone, hdn] at hok
            all_goals exact absurd hok (by simp)
          · cases hdn : data.name with
            | none =>
                rw [hsome, hdn] at hok
                exact absurd hok (by simp)
            | some n0 =>
                rw [hsome, hdn] at hok
                dsimp only at hok
                split at hok
                · exact absurd hok (by simp)
                · next hnocol =>
                    cases hok
                    simp only [Bool.not_eq_true, List.any_eq_false,
                      beq_iff_eq] at hnocol
                    constructor
                    · intro c hc
                      rcases List.mem_append.1 hc with hold | hnew
                      · exact hfix c hold
                      · rcases List.mem_singleton.1 hnew with rfl
                        simpa [insertCompanyRow] using hups
                    · rw [List.map_append, List.nodup_append]
                      refine ⟨hnd, by simp, ?_⟩
                      intro x hx hx2
                      simp only [List.map_cons, List.map_nil, List.mem_cons,
                        List.not_mem_nil, or_false] at hx2
                      rw [List.mem_map] at hx
                      obtain ⟨c0, hc0, hceq⟩ := hx
                      have hceq2 : c0.symbol = s := by
                        rw [hceq, hx2]
                        rfl
                      exact hnocol c0 hc0 hceq2
    · exact ⟨hfix, hnd⟩

/-- Witness for C7: a lowercase run symbol is canonicalized by the
pipeline; a verbatim upsert and a class-uniqueness instance at concrete
inputs. -/
theorem symbol_canonicalization_witness :
    let env : Env :=
      { fetchCompany := .ok none
        fetchStock := fun _ => .ok []
        fetchNews := fun _ _ _ => .ok []
        enrichArticle := fun _ _ => .error "x"
        generateSummary := fun _ _ => .ok "s"
        now := 0 }
    let data : CompanyIn := { symbol := some "ACME", name := some "Acme" }
    (pipelineRun "acme" {} env emptyDb 0 1).1.symbol = strUpper "acme" ∧
    (step1Company "ACME" none).symbol = some "ACME" ∧
    (upsertCompany emptyDb data 0 =
      .ok (insertCompanyRow "ACME" "Acme" data 0,
        { emptyDb with companies := [insertCompanyRow "ACME" "Acme" data 0] })) ∧
    ((applyOp emptyDb (.upsert data 0)).companies.map (fun c => strUpper c.symbol)).Nodup := by
  intro env data
  refine ⟨symbol_canonicalization.1 "acme" {} env emptyDb 0 1 none [] [] "s" _ _
      rfl rfl rfl rfl rfl,
    (symbol_canonicalization.2.1 "ACME" data).1,
    (symbol_canonicalization.2.2.1 data "ACME" "Acme" 0 rfl rfl).1,
    (symbol_canonicalization.2.2.2 emptyDb data 0 (Or.inr ⟨"ACME", rfl, by decide⟩)
      (by intro c hc; exact absurd hc (by simp [emptyDb]))
      (by simp [emptyDb])).2.2⟩

end CompanyIntel
